import Mathlib

/-!
# The candy transaction view (`src/qt/candyview.cpp`)

A shallow embedding of the slots of `CandyView`: the widget is a record of the
members the slots read and write, every slot is a function on that record, and
the collaborators that live outside the file (the filter proxy, the settings
store, the CSV writer, the desktop services) are represented by the calls they
receive.

The Qt value classes the slots compute with (`QString`, `QDate`, `QDateTime`)
are modelled by their documented behaviour; widths of machine integers are
made explicit where a slot does arithmetic on them.
-/

/-! ## QString -/

/-- A `QString` is the sequence of its characters. -/
abbrev QString := List Char

namespace QString

/-- `QString::endsWith(QChar c)`: the string is non-empty and its last character is `c`. -/
def endsWith (s : QString) (c : Char) : Bool :=
  s.getLast? == some c

/-- `QString::remove(int pos, int len)`: a negative position counts from the end, a
position outside the string changes nothing, a length reaching past the end
truncates at `pos`, and otherwise `len` characters are cut out at `pos`. -/
def remove (s : QString) (pos len : Int) : QString :=
  let size : Int := s.length
  let pos := if pos < 0 then pos + size else pos
  if pos < 0 ∨ size ≤ pos then s
  else if size - pos ≤ len then s.take pos.toNat
  else if 0 < len then s.take pos.toNat ++ s.drop (pos + len).toNat
  else s

/-- The scan of `QString::replace(before, after)` for a non-empty `before`: the
occurrences are found from left to right without overlap, `skip` counts the
characters of a matched occurrence that are still to be passed over. -/
def replaceGo (before after : QString) : QString → Nat → QString
  | [], _ => []
  | _ :: cs, skip + 1 => replaceGo before after cs skip
  | c :: cs, 0 =>
    if before.isPrefixOf (c :: cs) then after ++ replaceGo before after cs (before.length - 1)
    else c :: replaceGo before after cs 0

/-- `QString::replace(const QString &before, const QString &after)`: every occurrence
of `before` is replaced by `after`; an empty `before` matches at every position. -/
def replace (s before after : QString) : QString :=
  if before.isEmpty then after ++ s.flatMap (fun c => c :: after)
  else replaceGo before after s 0

end QString

/-! ## QDate -/

/-- `floordiv` of `qdatetime.cpp`: division rounding to negative infinity, written with
the truncating division of C++. -/
def floordiv (a b : Int) : Int :=
  Int.tdiv (a - (if a < 0 then b - 1 else 0)) b

/-- `julianDayFromDate` of `qdatetime.cpp` (Gregorian calendar, there is no year 0). -/
def julianDayFromDate (year month day : Int) : Int :=
  let year := if year < 0 then year + 1 else year
  let a := floordiv (14 - month) 12
  let y := year + 4800 - a
  let m := month + 12 * a - 3
  day + floordiv (153 * m + 2) 5 + 365 * y + floordiv y 4 - floordiv y 100 + floordiv y 400
    - 32045

/-- `ParsedDate` of `qdatetime.cpp`. -/
structure ParsedDate where
  year : Int
  month : Int
  day : Int
  deriving DecidableEq, Repr

/-- `getDateFromJulianDay` of `qdatetime.cpp`. -/
def getDateFromJulianDay (julianDay : Int) : ParsedDate :=
  let a := julianDay + 32044
  let b := floordiv (4 * a + 3) 146097
  let c := a - floordiv (146097 * b) 4
  let d := floordiv (4 * c + 3) 1461
  let e := c - floordiv (1461 * d) 4
  let m := floordiv (5 * e + 2) 153
  let day := e - floordiv (153 * m + 2) 5 + 1
  let month := m + 3 - 12 * floordiv m 10
  let year := 100 * b + d - 4800 + floordiv m 10
  { year := if year ≤ 0 then year - 1 else year, month := month, day := day }

/-- A `QDate`: the null date, or a date held as its Julian day number. The 64-bit
bounds of the day number are not part of the model. -/
inductive QDate where
  | null
  | julian (jd : Int)
  deriving DecidableEq, Repr

namespace QDate

/-- `QDate::isValid()`. -/
def isValid : QDate → Bool
  | null => false
  | julian _ => true

/-- `QDate::isLeapYear(int year)`. -/
def isLeapYear (y : Int) : Bool :=
  let y := if y < 1 then y + 1 else y
  (y % 4 == 0 && y % 100 != 0) || y % 400 == 0

/-- The table `monthDays` of `qdatetime.cpp`. -/
def monthDays (month : Int) : Int :=
  if month = 2 then 28
  else if month = 4 ∨ month = 6 ∨ month = 9 ∨ month = 11 then 30
  else if 1 ≤ month ∧ month ≤ 12 then 31
  else 0

/-- `QDate::isValid(int year, int month, int day)`. -/
def isValidYMD (year month day : Int) : Bool :=
  if year = 0 then false
  else decide (0 < day ∧ 0 < month ∧ month ≤ 12) &&
    (decide (day ≤ monthDays month) || (day == 29 && month == 2 && isLeapYear year))

/-- The constructor `QDate(int y, int m, int d)`: the null date when the three numbers
do not name a day of the calendar. -/
def ofYMD (y m d : Int) : QDate :=
  if isValidYMD y m d then julian (julianDayFromDate y m d) else null

/-- `QDate::year()`, 0 for the null date. -/
def year : QDate → Int
  | null => 0
  | julian jd => (getDateFromJulianDay jd).year

/-- `QDate::month()`, 0 for the null date. -/
def month : QDate → Int
  | null => 0
  | julian jd => (getDateFromJulianDay jd).month

/-- `QDate::day()`, 0 for the null date. -/
def day : QDate → Int
  | null => 0
  | julian jd => (getDateFromJulianDay jd).day

/-- `QDate::dayOfWeek()`: 1 for Monday up to 7 for Sunday, 0 for the null date. -/
def dayOfWeek : QDate → Int
  | null => 0
  | julian jd => if 0 ≤ jd then Int.tmod jd 7 + 1 else Int.tmod (jd + 1) 7 + 7

/-- `QDate::daysInMonth()`, 0 for the null date. -/
def daysInMonth : QDate → Int
  | null => 0
  | julian jd =>
    let pd := getDateFromJulianDay jd
    if pd.month = 2 ∧ isLeapYear pd.year = true then 29 else monthDays pd.month

/-- `QDate::addDays(qint64 ndays)`. -/
def addDays : QDate → Int → QDate
  | null, _ => null
  | julian jd, ndays => julian (jd + ndays)

/-- `QDate::daysTo(const QDate &d)`: the number of days from this date to `d`, 0 when
one of them is null. -/
def daysTo : QDate → QDate → Int
  | julian jd, julian jd2 => jd2 - jd
  | _, _ => 0

/-- `fixedDate(int y, int m, int d)` of `qdatetime.cpp`: the day is cut down to the
length of the month. -/
def fixedDate (y m d : Int) : QDate :=
  ofYMD y m (min d (ofYMD y m 1).daysInMonth)

/-- The loop of `QDate::addMonths`, one round per unit of fuel: it carries the year,
the month and the number of months still to be added. -/
def addMonthsLoop : Nat → Int → Int → Int → Int × Int
  | 0, y, m, _ => (y, m)
  | fuel + 1, y, m, nmonths =>
    if nmonths = 0 then (y, m)
    else if nmonths < 0 ∧ nmonths + 12 ≤ 0 then addMonthsLoop fuel (y - 1) m (nmonths + 12)
    else if nmonths < 0 then
      let m := m + nmonths
      if m ≤ 0 then (y - 1, m + 12) else (y, m)
    else if 0 ≤ nmonths - 12 then addMonthsLoop fuel (y + 1) m (nmonths - 12)
    else if m = 12 then addMonthsLoop fuel (y + 1) 0 nmonths
    else
      let m := m + nmonths
      if 12 < m then (y + 1, m - 12) else (y, m)

/-- `QDate::addMonths(int nmonths)`: the loop needs at most one round per twelve months
and two more, and a result on the other side of the missing year 0 is moved by one
year. -/
def addMonths (date : QDate) (nmonths : Int) : QDate :=
  match date with
  | null => null
  | julian jd =>
    if nmonths = 0 then date
    else
      let pd := getDateFromJulianDay jd
      let old_y := pd.year
      let increasing := decide (0 < nmonths)
      let (y, m) := addMonthsLoop (nmonths.natAbs + 2) pd.year pd.month nmonths
      let y :=
        if (0 < old_y ∧ y ≤ 0) ∨ (old_y < 0 ∧ 0 ≤ y) then (if increasing then y + 1 else y - 1)
        else y
      fixedDate y m pd.day

/-- Decimal digits of `n`, padded with zeros to `width` characters, the sign included
(`QLocale`'s zero-padded number formatting). -/
def zeroPadded (n : Int) (width : Nat) : QString :=
  let digits := Nat.toDigits 10 n.natAbs
  if n < 0 then '-' :: (List.replicate (width - 1 - digits.length) '0' ++ digits)
  else List.replicate (width - digits.length) '0' ++ digits

/-- The numeric expressions of a `QDate` format string: `yyyy`, `yy`, `MM`, `M`, `dd`
and `d`; any other character stands for itself. The expressions that print names
(`ddd`, `MMM` and longer) depend on the locale and are outside the model. -/
def formatGo (y m d : Int) : QString → QString
  | 'y' :: 'y' :: 'y' :: 'y' :: r => zeroPadded y (if y < 0 then 5 else 4) ++ formatGo y m d r
  | 'y' :: 'y' :: r => zeroPadded (y % 100) 2 ++ formatGo y m d r
  | 'M' :: 'M' :: r => zeroPadded m 2 ++ formatGo y m d r
  | 'M' :: r => zeroPadded m 1 ++ formatGo y m d r
  | 'd' :: 'd' :: r => zeroPadded d 2 ++ formatGo y m d r
  | 'd' :: r => zeroPadded d 1 ++ formatGo y m d r
  | c :: r => c :: formatGo y m d r
  | [] => []

/-- `QDate::toString(const QString &format)`, empty for the null date. -/
def toString (date : QDate) (format : QString) : QString :=
  match date with
  | null => []
  | julian jd =>
    let pd := getDateFromJulianDay jd
    formatGo pd.year pd.month pd.day format

end QDate

/-- A `QDateTime`: a date and the milliseconds elapsed since its midnight. -/
structure QDateTime where
  date : QDate
  msecs : Int
  deriving DecidableEq, Repr

/-- The constructor `QDateTime(const QDate &)`: midnight of the date. -/
def QDateTime.ofDate (d : QDate) : QDateTime :=
  { date := d, msecs := 0 }

/-! ## The collaborators of the view -/

/-- A `QVariant` as the settings store holds it. -/
inductive QVariant where
  | int (i : Int)
  | string (s : QString)
  deriving DecidableEq, Repr

/-- `QVariant::toInt()` on what `QSettings::value` returns: 0 for a key that is not
set and for a text that is not a decimal number. -/
def QVariant.toInt : Option QVariant → Int
  | none => 0
  | some (QVariant.int i) => i
  | some (QVariant.string s) => ((String.mk s).toInt?).getD 0

/-- The key-value store behind `QSettings`, the most recent key first. -/
abbrev QSettings := List (String × QVariant)

namespace QSettings

/-- `QSettings::setValue(key, value)`. -/
def setValue (st : QSettings) (key : String) (v : QVariant) : QSettings :=
  (key, v) :: st.filter (fun p => p.1 != key)

/-- `QSettings::value(key)`, `none` when the key is not set. -/
def value (st : QSettings) (key : String) : Option QVariant :=
  st.lookup key

end QSettings

/-- A call of one of the setters of `TransactionFilterProxy`: the five filter setters
that the slots call, and the configuration calls of `setModel`. -/
inductive ProxyCall where
  | setDateRange (dateFrom dateTo : QDateTime)
  | setAssetsNamePrefix (assetsName : QString)
  | setWatchOnlyFilter (filter : Int)
  | setAddressPrefix (addrPrefix : QString)
  | setMinAssetsAmountStr (amount : QString)
  | setSourceModel
  | setDynamicSortFilter (enable : Bool)
  | setSortCaseSensitivity (caseSensitive : Bool)
  | setFilterCaseSensitivity (caseSensitive : Bool)
  | setFilterType (filterType : Bool)
  | setSortRole (role : Int)
  deriving DecidableEq, Repr

/-- The filter proxy, as the view sees it: the setter calls it has received, oldest
first. -/
structure TransactionFilterProxy where
  calls : List ProxyCall
  deriving DecidableEq, Repr

/-- The proxy after one more setter call. -/
def TransactionFilterProxy.call (p : TransactionFilterProxy) (c : ProxyCall) :
    TransactionFilterProxy :=
  { p with calls := p.calls ++ [c] }

/-- The data of one table row under the roles the view asks for, each already converted
the way the view converts it (`toLongLong`, `toInt`, `toString`). -/
structure TransactionRow where
  assetsAmount : Int
  amountUnit : QString
  assetsDecimals : Int
  assetsName : QString
  txHash : QString
  address : QString
  deriving DecidableEq, Repr

/-- A `QModelIndex` of the table: invalid, or pointing at a row. -/
abbrev QModelIndex := Option TransactionRow

namespace QModelIndex

/-- `QModelIndex::isValid()`. -/
def isValid (index : QModelIndex) : Bool := index.isSome

/-- `index.data(AssetsAmountRole).toLongLong()`, 0 on an invalid index. -/
def assetsAmount (index : QModelIndex) : Int := (index.map (·.assetsAmount)).getD 0

/-- `index.data(AmountUnitRole).toString()`, empty on an invalid index. -/
def amountUnit (index : QModelIndex) : QString := (index.map (·.amountUnit)).getD []

/-- `index.data(AssetsDecimalsRole).toInt()`, 0 on an invalid index. -/
def assetsDecimals (index : QModelIndex) : Int := (index.map (·.assetsDecimals)).getD 0

/-- `index.data(AssetsNameRole).toString()`, empty on an invalid index. -/
def assetsName (index : QModelIndex) : QString := (index.map (·.assetsName)).getD []

/-- `index.data(TxHashRole).toString()`, empty on an invalid index. -/
def txHash (index : QModelIndex) : QString := (index.map (·.txHash)).getD []

/-- `index.data(AddressRole).toString()`, empty on an invalid index. -/
def address (index : QModelIndex) : QString := (index.map (·.address)).getD []

end QModelIndex

/-- The options model, as far as the view reads it. -/
structure OptionsModel where
  displayUnit : Int
  thirdPartyTxUrls : QString
  deriving DecidableEq, Repr

/-- A `uint256`, held as the hexadecimal text that `SetHex` was given. -/
structure uint256 where
  hex : QString
  deriving DecidableEq, Repr

/-- `uint256::SetHex(const std::string &)` on a fresh `uint256`. -/
def uint256.SetHex (text : QString) : uint256 := { hex := text }

/-- Modelled from the spec: the type of an entry of the address book, send or
receive (`AddressTableModel::Send`, `AddressTableModel::Receive`). -/
inductive AddressType where
  | Send
  | Receive
  deriving DecidableEq, Repr

/-- An entry of the address book: an address and its type. -/
structure AddressEntry where
  address : QString
  type : AddressType
  deriving DecidableEq, Repr

/-- The address book, as far as the view reads it: its rows. -/
structure AddressTableModel where
  entries : List AddressEntry
  deriving DecidableEq, Repr

/-- Modelled from the spec: `AddressTableModel::lookupAddress`, the row of the first
entry with the address, -1 when there is none. -/
def AddressTableModel.lookupAddress (book : AddressTableModel) (address : QString) : Int :=
  match book.entries.findIdx? (fun e => e.address = address) with
  | some row => row
  | none => -1

/-- `addressBook->index(idx, 0, QModelIndex()).data(AddressTableModel::TypeRole)`: the
type of the entry in row `idx`, `none` when there is no such row. -/
def AddressTableModel.typeAt (book : AddressTableModel) (idx : Int) : Option AddressType :=
  if idx < 0 then none else (book.entries.get? idx.toNat).map (fun e => e.type)

/-- The wallet model, as far as the view reads it: `getOptionsModel()` and
`getAddressTableModel()` may be null, `abandonable` holds the hashes for which
`transactionCanBeAbandoned` answers true. -/
structure WalletModel where
  haveWatchOnly : Bool
  optionsModel : Option OptionsModel
  addressTableModel : Option AddressTableModel
  abandonable : List uint256
  deriving DecidableEq, Repr

/-- `WalletModel::transactionCanBeAbandoned(uint256 hash)`. -/
def WalletModel.transactionCanBeAbandoned (model : WalletModel) (hash : uint256) : Bool :=
  model.abandonable.contains hash

/-- A `QUrl`, held as the text it was built from. -/
structure QUrl where
  userInput : QString
  deriving DecidableEq, Repr

/-- `QUrl::fromUserInput`. -/
def QUrl.fromUserInput (text : QString) : QUrl := { userInput := text }

/-- The roles of `TransactionTableModel` that the view names. -/
inductive RoleIndex where
  | DateRole
  | WatchonlyRole
  | AddressRole
  | LabelRole
  | TxIDRole
  | TxHashRole
  | TxHexRole
  | TxPlainTextRole
  | ConfirmedRole
  | FormattedAmountRole
  | AssetsNameRole
  | AssetsAmountRole
  | AmountUnitRole
  | AssetsDecimalsRole
  deriving DecidableEq, Repr

/-- `BitcoinUnits::SeparatorStyle`. -/
inductive SeparatorStyle where
  | separatorNever
  | separatorStandard
  | separatorAlways
  deriving DecidableEq, Repr

/-- The message levels of `CClientUIInterface` that the view uses. -/
inductive MessageStyle where
  | MSG_INFORMATION
  | MSG_ERROR
  deriving DecidableEq, Repr

/-- `Qt::EditRole`. -/
def EditRole : Int := 2

/-- A column registered with the CSV writer: `addColumn(title, column, role)`. -/
structure CSVColumn where
  title : QString
  column : Int
  role : Int
  deriving DecidableEq, Repr

/-- The `CSVModelWriter` of an export: its file name, the model it reads and the columns
added so far. -/
structure CSVModelWriter where
  filename : QString
  model : Option TransactionFilterProxy
  columns : List CSVColumn
  deriving DecidableEq, Repr

/-- `CSVModelWriter::setModel(const QAbstractItemModel *model)`. -/
def CSVModelWriter.setModel (w : CSVModelWriter) (model : Option TransactionFilterProxy) :
    CSVModelWriter :=
  { w with model := model }

/-- `CSVModelWriter::addColumn(title, column, role)`; a call with two arguments is a
call with `Qt::EditRole` as the third. -/
def CSVModelWriter.addColumn (w : CSVModelWriter) (title : QString) (column : Int)
    (role : Int) : CSVModelWriter :=
  { w with columns := w.columns ++ [{ title := title, column := column, role := role }] }

/-- The modes of `EditAddressDialog`. -/
inductive EditAddressMode where
  | NewReceivingAddress
  | NewSendingAddress
  | EditReceivingAddress
  | EditSendingAddress
  deriving DecidableEq, Repr

/-- `ChangeType` of `ui_interface.h`. -/
inductive ChangeType where
  | CT_NEW
  | CT_UPDATED
  | CT_DELETED
  deriving DecidableEq, Repr

/-- What the view does to the world outside itself: the signals it emits and the calls
it makes that return nothing to it.

`transactionDescDialog` is the modal `TransactionDescDialog` run on an index,
`editAddressDialog` the modal `EditAddressDialog` run in a mode after `loadRow` or
`setAddress`; `abandonTransaction` is the call into the wallet model, `updateTransaction`
the call into the table model, `contextMenuExec` the run of the context menu. -/
inductive Effect where
  | trxAmount (text : QString)
  | message (title text : QString) (style : MessageStyle)
  | openUrl (url : QUrl)
  | csvWrite (writer : CSVModelWriter)
  | transactionDescDialog (index : QModelIndex)
  | editAddressDialog (mode : EditAddressMode) (loadRow : Option Int)
      (setAddress : Option QString)
  | abandonTransaction (hash : uint256)
  | updateTransaction (hash : QString) (status : ChangeType) (showTransaction : Bool)
  | contextMenuExec
  deriving DecidableEq, Repr

/-- The parts of the application that the view calls and that are declared in other
files: the two constants of `TransactionFilterProxy`, the numbering of the roles, the
amount formatting of `BitcoinUnits` and the translation of user-visible texts. -/
structure Context where
  MIN_DATE : QDateTime
  MAX_DATE : QDateTime
  role : RoleIndex → Int
  formatWithUnit : Int → Int → Bool → SeparatorStyle → Bool → QString → QString
  getAmountColumnTitle : Int → QString
  tr : QString → QString

/-! ## The view -/

/-- Modelled from the spec: the enumeration `DateEnum` of `candyview.h`, whose values
are listed as All, Today, ThisWeek, ThisMonth, LastMonth, ThisYear, Range. -/
inductive DateEnum where
  | All
  | Today
  | ThisWeek
  | ThisMonth
  | LastMonth
  | ThisYear
  | Range
  deriving DecidableEq, Repr

/-- Modelled from the spec: the integer value of a `DateEnum`, numbered from 0 in the
order of the list. -/
def DateEnum.toInt : DateEnum → Int
  | All => 0
  | Today => 1
  | ThisWeek => 2
  | ThisMonth => 3
  | LastMonth => 4
  | ThisYear => 5
  | Range => 6

/-- The items of `dateWidget`, as the constructor adds them: the user data of each. -/
def dateWidgetItems : List DateEnum :=
  [DateEnum.All, DateEnum.Today, DateEnum.ThisWeek, DateEnum.ThisMonth, DateEnum.LastMonth,
    DateEnum.ThisYear, DateEnum.Range]

/-- `dateWidget->itemData(idx).toInt()`: an index without an item gives an invalid
variant, which converts to 0. -/
def dateWidgetItemData (idx : Int) : Int :=
  if idx < 0 then 0 else ((dateWidgetItems.get? idx.toNat).map DateEnum.toInt).getD 0

/-- Modelled from the spec: the watch-only modes all, yes, no of
`TransactionFilterProxy::WatchOnlyFilter`, numbered from 0; they are the user data of
the items of `watchOnlyWidget`. -/
def watchOnlyWidgetItems : List Int := [0, 1, 2]

/-- `watchOnlyWidget->itemData(idx).toInt()`. -/
def watchOnlyWidgetItemData (idx : Int) : Int :=
  if idx < 0 then 0 else (watchOnlyWidgetItems.get? idx.toNat).getD 0

/-- `PERSISTENCE_DATE_FORMAT`. -/
def PERSISTENCE_DATE_FORMAT : QString := "yyyy-MM-dd".toList

/-- The view: the members of `CandyView` that its slots read or write, the settings
store, and the effects the slots have had so far.

`selectionModel` is `candyView->selectionModel()` together with the rows it has
selected (`selectedRows()`); `dateFrom` and `dateTo` are the dates shown by the two
date pickers; `abandonActionEnabled` is the enabled flag of `abandonAction`. -/
structure CandyView where
  model : Option WalletModel
  transactionProxyModel : Option TransactionFilterProxy
  selectionModel : Option (List QModelIndex)
  dateRangeWidgetVisible : Bool
  dateFrom : QDate
  dateTo : QDate
  watchOnlyWidgetVisible : Bool
  watchOnlyColumnHidden : Bool
  abandonActionEnabled : Bool
  settings : QSettings
  effects : List Effect
  deriving DecidableEq, Repr

namespace CandyView

/-- `CandyView::dateRangeChanged()`. -/
def dateRangeChanged (s : CandyView) : CandyView :=
  match s.transactionProxyModel with
  | none => s
  | some proxy =>
    let settings := s.settings.setValue "transactionDateFrom"
      (QVariant.string (s.dateFrom.toString PERSISTENCE_DATE_FORMAT))
    let settings := settings.setValue "transactionDateTo"
      (QVariant.string (s.dateTo.toString PERSISTENCE_DATE_FORMAT))
    { s with
      settings := settings
      transactionProxyModel := some (proxy.call
        (ProxyCall.setDateRange (QDateTime.ofDate s.dateFrom) (QDateTime.ofDate s.dateTo))) }

/-- The call `transactionProxyModel->setDateRange(a, b)` inside `chooseDate`, where the
proxy is known to be bound. -/
def setDateRange (s : CandyView) (a b : QDateTime) : CandyView :=
  { s with
    transactionProxyModel :=
      s.transactionProxyModel.map (fun p => p.call (ProxyCall.setDateRange a b)) }

/-- `CandyView::chooseDate(int idx)`; `current` is what `QDate::currentDate()` returns. -/
def chooseDate (ctx : Context) (current : QDate) (idx : Int) (s : CandyView) : CandyView :=
  match s.transactionProxyModel with
  | none => s
  | some _ =>
    let s := { s with dateRangeWidgetVisible := false }
    let data := dateWidgetItemData idx
    let s :=
      if data = DateEnum.All.toInt then
        s.setDateRange ctx.MIN_DATE ctx.MAX_DATE
      else if data = DateEnum.Today.toInt then
        s.setDateRange (QDateTime.ofDate current) ctx.MAX_DATE
      else if data = DateEnum.ThisWeek.toInt then
        let startOfWeek := current.addDays (-(current.dayOfWeek - 1))
        s.setDateRange (QDateTime.ofDate startOfWeek) ctx.MAX_DATE
      else if data = DateEnum.ThisMonth.toInt then
        s.setDateRange (QDateTime.ofDate (QDate.ofYMD current.year current.month 1)) ctx.MAX_DATE
      else if data = DateEnum.LastMonth.toInt then
        s.setDateRange
          (QDateTime.ofDate ((QDate.ofYMD current.year current.month 1).addMonths (-1)))
          (QDateTime.ofDate (QDate.ofYMD current.year current.month 1))
      else if data = DateEnum.ThisYear.toInt then
        s.setDateRange (QDateTime.ofDate (QDate.ofYMD current.year 1 1)) ctx.MAX_DATE
      else if data = DateEnum.Range.toInt then
        dateRangeChanged { s with dateRangeWidgetVisible := true }
      else s
    let s := { s with settings := s.settings.setValue "transactionDate" (QVariant.int idx) }
    if data = DateEnum.Range.toInt then
      let settings := s.settings.setValue "transactionDateFrom"
        (QVariant.string (s.dateFrom.toString PERSISTENCE_DATE_FORMAT))
      let settings := settings.setValue "transactionDateTo"
        (QVariant.string (s.dateTo.toString PERSISTENCE_DATE_FORMAT))
      { s with settings := settings }
    else s

/-- `CandyView::changedAssetsName(const QString &assetsName)`. -/
def changedAssetsName (assetsName : QString) (s : CandyView) : CandyView :=
  match s.transactionProxyModel with
  | none => s
  | some proxy =>
    { s with
      transactionProxyModel := some (proxy.call (ProxyCall.setAssetsNamePrefix assetsName)) }

/-- `CandyView::chooseWatchonly(int idx)`. -/
def chooseWatchonly (idx : Int) (s : CandyView) : CandyView :=
  match s.transactionProxyModel with
  | none => s
  | some proxy =>
    { s with
      transactionProxyModel :=
        some (proxy.call (ProxyCall.setWatchOnlyFilter (watchOnlyWidgetItemData idx))) }

/-- `CandyView::changedPrefix(const QString &prefix)`. -/
def changedPrefix (addrPrefix : QString) (s : CandyView) : CandyView :=
  match s.transactionProxyModel with
  | none => s
  | some proxy =>
    { s with
      transactionProxyModel := some (proxy.call (ProxyCall.setAddressPrefix addrPrefix)) }

/-- `CandyView::changedAmount(const QString &amount)`. -/
def changedAmount (amount : QString) (s : CandyView) : CandyView :=
  match s.transactionProxyModel with
  | none => s
  | some proxy =>
    let amountStr := amount
    let amountStr :=
      if amountStr.endsWith '.' then
        let lastIndex : Int := amountStr.length - 1
        amountStr.remove lastIndex 1
      else amountStr
    { s with
      transactionProxyModel := some (proxy.call (ProxyCall.setMinAssetsAmountStr amountStr)) }

end CandyView

/-! ## The selection sum, the explorer link and the export -/

/-- A value of type `qint64`: the integers wrap around at 64 bits as in
two-complement arithmetic. -/
def toQint64 (x : Int) : Int :=
  (x + 2 ^ 63) % 2 ^ 64 - 2 ^ 63

/-- The local variables of `computeSum` that live across the rounds of its loop. -/
structure SumState where
  amount : Int
  strUnit : QString
  firstAssetName : QString
  i : Int
  assetsDecimal : Int
  deriving DecidableEq, Repr

/-- The local variables of `computeSum` before the loop. -/
def SumState.init : SumState :=
  { amount := 0, strUnit := [], firstAssetName := [], i := 0, assetsDecimal := 0 }

/-- One round of the `Q_FOREACH` loop of `computeSum`. -/
def computeSumStep (acc : SumState) (index : QModelIndex) : SumState :=
  if !index.isValid then acc
  else
    let i := acc.i + 1
    if i = 1 then
      { amount := toQint64 (acc.amount + index.assetsAmount)
        strUnit := index.amountUnit
        assetsDecimal := index.assetsDecimals
        firstAssetName := index.assetsName
        i := i }
    else
      let currAmountName := index.assetsName
      if acc.firstAssetName = currAmountName then
        { acc with i := i, amount := toQint64 (acc.amount + index.assetsAmount) }
      else { acc with i := i }

/-- The text `computeSum` emits for the final values of its local variables. -/
def sumText (ctx : Context) (acc : SumState) : QString :=
  let strAmount := ctx.formatWithUnit acc.assetsDecimal acc.amount true
    SeparatorStyle.separatorAlways true acc.strUnit
  if acc.amount < 0 then "<span style=\'color:red;\'>".toList ++ strAmount ++ "</span>".toList
  else strAmount

/-- `QString::arg(const QString &a)` on a text whose only place marker is `%1`. -/
def QString.arg (text a : QString) : QString :=
  text.replace "%1".toList a

namespace CandyView

/-- `CandyView::computeSum()`. -/
def computeSum (ctx : Context) (s : CandyView) : CandyView :=
  match s.selectionModel with
  | none => s
  | some selection =>
    if selection.isEmpty then s
    else
      let acc := selection.foldl computeSumStep SumState.init
      { s with effects := s.effects ++ [Effect.trxAmount (sumText ctx acc)] }

/-- `CandyView::openThirdPartyTxUrl(QString url)`; the table view `candyView` itself
exists from the constructor on. -/
def openThirdPartyTxUrl (url : QString) (s : CandyView) : CandyView :=
  match s.selectionModel with
  | none => s
  | some selection =>
    match selection with
    | [] => s
    | first :: _ =>
      { s with
        effects := s.effects ++
          [Effect.openUrl (QUrl.fromUserInput (url.replace "%s".toList first.txHash))] }

/-- `CandyView::exportClicked()`. `filename` is what the file dialog returns, `none`
for the null string of a cancelled dialog; `writeOk` is what `writer.write()` returns.
The result is `none` when the slot dereferences a null pointer. -/
def exportClicked (ctx : Context) (filename : Option QString) (writeOk : Bool)
    (s : CandyView) : Option CandyView :=
  match filename with
  | none => some s
  | some filename =>
    let writer : CSVModelWriter := { filename := filename, model := none, columns := [] }
    let writer := writer.setModel s.transactionProxyModel
    let writer := writer.addColumn (ctx.tr "Confirmed".toList) 0
      (ctx.role RoleIndex.ConfirmedRole)
    let writer :=
      if (s.model.map (·.haveWatchOnly)).getD false then
        writer.addColumn (ctx.tr "Watch-only".toList) (ctx.role RoleIndex.WatchonlyRole) EditRole
      else writer
    let writer := writer.addColumn (ctx.tr "Date".toList) 0 (ctx.role RoleIndex.DateRole)
    let writer := writer.addColumn (ctx.tr "Asset Name".toList) 0
      (ctx.role RoleIndex.AssetsNameRole)
    let writer := writer.addColumn (ctx.tr "Address".toList) 0 (ctx.role RoleIndex.AddressRole)
    match s.model with
    | none => none
    | some model =>
      match model.optionsModel with
      | none => none
      | some options =>
        let writer := writer.addColumn (ctx.getAmountColumnTitle options.displayUnit) 0
          (ctx.role RoleIndex.FormattedAmountRole)
        let writer := writer.addColumn (ctx.tr "ID".toList) 0 (ctx.role RoleIndex.TxIDRole)
        let s := { s with effects := s.effects ++ [Effect.csvWrite writer] }
        if !writeOk then
          some { s with
            effects := s.effects ++
              [Effect.message (ctx.tr "Exporting Failed".toList)
                (QString.arg (ctx.tr
                  "There was an error trying to save the get candy history to %1.".toList)
                  filename)
                MessageStyle.MSG_ERROR] }
        else
          some { s with
            effects := s.effects ++
              [Effect.message (ctx.tr "Exporting Successful".toList)
                (QString.arg (ctx.tr "The get candy history was successfully saved to %1.".toList)
                  filename)
                MessageStyle.MSG_INFORMATION] }

/-- `CandyView::updateWatchOnlyColumn(bool fHaveWatchOnly)`. -/
def updateWatchOnlyColumn (fHaveWatchOnly : Bool) (s : CandyView) : CandyView :=
  { s with
    watchOnlyWidgetVisible := true
    watchOnlyColumnHidden := !fHaveWatchOnly }

/-- `CandyView::showDetails()`. -/
def showDetails (s : CandyView) : CandyView :=
  match s.selectionModel with
  | none => s
  | some selection =>
    match selection with
    | [] => s
    | first :: _ => { s with effects := s.effects ++ [Effect.transactionDescDialog first] }

/-- `CandyView::editLabel()`. -/
def editLabel (s : CandyView) : CandyView :=
  match s.selectionModel, s.model with
  | none, _ => s
  | some _, none => s
  | some selection, some model =>
    match selection with
    | [] => s
    | first :: _ =>
      match model.addressTableModel with
      | none => s
      | some addressBook =>
        let address := first.address
        if address.isEmpty then s
        else
          let idx := addressBook.lookupAddress address
          if idx ≠ -1 then
            let type := addressBook.typeAt idx
            { s with
              effects := s.effects ++
                [Effect.editAddressDialog
                  (if type = some AddressType.Receive then EditAddressMode.EditReceivingAddress
                    else EditAddressMode.EditSendingAddress)
                  (some idx) none] }
          else
            { s with
              effects := s.effects ++
                [Effect.editAddressDialog EditAddressMode.NewSendingAddress none
                  (some address)] }

/-- `CandyView::abandonTx()`. The result is `none` when the slot reads element 0 of an
empty selection (`selection.at(0)`) or dereferences the null `model`. -/
def abandonTx (s : CandyView) : Option CandyView :=
  match s.selectionModel with
  | none => some s
  | some selection =>
    match selection with
    | [] => none
    | first :: _ =>
      let hashQStr := first.txHash
      let hash := uint256.SetHex hashQStr
      match s.model with
      | none => none
      | some _ =>
        some { s with
          effects := s.effects ++
            [Effect.abandonTransaction hash,
              Effect.updateTransaction hashQStr ChangeType.CT_UPDATED false] }

/-- `CandyView::contextualMenu(const QPoint &point)`; `index` is what
`candyView->indexAt(point)` returns. The result is `none` when the slot dereferences a
null selection model or the null `model`, or reads element 0 of an empty selection
(`selection.at(0)`). -/
def contextualMenu (index : QModelIndex) (s : CandyView) : Option CandyView :=
  if !index.isValid then some s
  else
    match s.selectionModel with
    | none => none
    | some selection =>
      match selection with
      | [] => none
      | first :: _ =>
        let hash := uint256.SetHex first.txHash
        match s.model with
        | none => none
        | some model =>
          some { s with
            abandonActionEnabled := model.transactionCanBeAbandoned hash
            effects := s.effects ++ [Effect.contextMenuExec] }

/-- The constructor `CandyView::CandyView`: no wallet model, no filter proxy, a table
view without a model, the range panel hidden. `settings` is the settings store the
widget finds, `dateFrom` and `dateTo` are the dates the two pickers show once
`createDateRangeWidget` has loaded the persisted range. -/
def construct (settings : QSettings) (dateFrom dateTo : QDate) : CandyView :=
  { model := none, transactionProxyModel := none, selectionModel := none,
    dateRangeWidgetVisible := false, dateFrom := dateFrom, dateTo := dateTo,
    watchOnlyWidgetVisible := true, watchOnlyColumnHidden := false,
    abandonActionEnabled := true, settings := settings, effects := [] }

/-- The `TransactionFilterProxy` that `setModel` creates and configures: a fresh proxy
after the six configuration calls, with `Qt::CaseInsensitive` for both case
sensitivities. -/
def newProxy : TransactionFilterProxy :=
  { calls :=
      [ProxyCall.setSourceModel, ProxyCall.setDynamicSortFilter true,
        ProxyCall.setSortCaseSensitivity false, ProxyCall.setFilterCaseSensitivity false,
        ProxyCall.setFilterType false, ProxyCall.setSortRole EditRole] }

/-- `CandyView::setModel(WalletModel *model)`; `current` is what `QDate::currentDate()`
returns inside `chooseDate`. Giving the proxy to the table view gives the view a
selection model with nothing selected. The layout calls on the table view, the signal
connections and the menu entries for the explorer links touch none of the members kept
in the record. -/
def setModel (ctx : Context) (current : QDate) (model : Option WalletModel) (s : CandyView) :
    CandyView :=
  let s := { s with model := model }
  match model with
  | none => s
  | some m =>
    let s := { s with transactionProxyModel := some newProxy, selectionModel := some [] }
    let s := s.updateWatchOnlyColumn m.haveWatchOnly
    s.chooseDate ctx current (QVariant.toInt (s.settings.value "transactionDate"))

/-- A sequence of `setModel` calls, each with the current date at the time of the call
and the wallet model it is given. -/
def setModels (ctx : Context) (calls : List (QDate × Option WalletModel)) (s : CandyView) :
    CandyView :=
  calls.foldl (fun s c => s.setModel ctx c.1 c.2) s

end CandyView

/-! ## Reference definitions and sample values -/

/-- The year before `y` in a calendar without a year 0. -/
def previousYear (y : Int) : Int :=
  if y = 1 then -1 else y - 1

/-- The date `q` is the valid date with year `y`, month `m` and day `dd`. -/
def QDate.isDay (q : QDate) (y m dd : Int) : Prop :=
  q.isValid = true ∧ q.year = y ∧ q.month = m ∧ q.day = dd

instance (q : QDate) (y m dd : Int) : Decidable (q.isDay y m dd) := by
  unfold QDate.isDay
  exact inferInstance

/-- The sum the selection aggregator is specified to show: the amounts of the selected
rows that carry the asset name of the first selected row, the first row included. -/
def specifiedSum (first : TransactionRow) (rest : List TransactionRow) : Int :=
  (((first :: rest).filter (fun r => r.assetsName = first.assetsName)).map
    (fun r => r.assetsAmount)).sum

/-- A sample context: 1 January 1970 and 7 February 2106 as the two date constants,
the roles numbered from `Qt::UserRole`, amounts printed as a number followed by the
unit, texts left untranslated. -/
def sampleContext : Context where
  MIN_DATE := QDateTime.ofDate (QDate.julian 2440588)
  MAX_DATE := QDateTime.ofDate (QDate.julian 2490298)
  role := fun r =>
    256 + match r with
      | RoleIndex.DateRole => 1
      | RoleIndex.WatchonlyRole => 2
      | RoleIndex.AddressRole => 5
      | RoleIndex.LabelRole => 6
      | RoleIndex.TxIDRole => 8
      | RoleIndex.TxHashRole => 9
      | RoleIndex.TxHexRole => 10
      | RoleIndex.TxPlainTextRole => 11
      | RoleIndex.ConfirmedRole => 12
      | RoleIndex.FormattedAmountRole => 13
      | RoleIndex.AssetsNameRole => 16
      | RoleIndex.AssetsAmountRole => 17
      | RoleIndex.AmountUnitRole => 18
      | RoleIndex.AssetsDecimalsRole => 19
  formatWithUnit := fun _ amount _ _ _ unit =>
    (if amount < 0 then ['-'] else ['+']) ++ Nat.toDigits 10 amount.natAbs ++ ' ' :: unit
  getAmountColumnTitle := fun _ => "Amount (SAFE)".toList
  tr := fun text => text

/-- A sample row: `amount` units of the asset `name`. -/
def sampleRow (name : String) (amount : Int) : TransactionRow :=
  { assetsAmount := amount, amountUnit := name.toList, assetsDecimals := 4,
    assetsName := name.toList, txHash := "abc123".toList, address := "XsampleAddress".toList }

/-- A view to which no wallet model has been given: the state the constructor leaves,
with 30 and 31 October 2026 in the two date pickers. -/
def unboundView : CandyView :=
  { model := none, transactionProxyModel := none, selectionModel := none,
    dateRangeWidgetVisible := false, dateFrom := QDate.julian 2461344,
    dateTo := QDate.julian 2461345, watchOnlyWidgetVisible := true,
    watchOnlyColumnHidden := false, abandonActionEnabled := true, settings := [],
    effects := [] }

/-- A sample wallet model without a watch-only balance. -/
def sampleWallet : WalletModel :=
  { haveWatchOnly := false,
    optionsModel := some { displayUnit := 0, thirdPartyTxUrls := [] },
    addressTableModel := some { entries := [] },
    abandonable := [] }

/-- A view with a wallet model and a filter proxy bound and the rows `rows` selected. -/
def boundView (haveWatchOnly : Bool) (rows : List TransactionRow) : CandyView :=
  { unboundView with
    model := some { haveWatchOnly := haveWatchOnly,
                    optionsModel := some { displayUnit := 0, thirdPartyTxUrls := [] },
                    addressTableModel := some { entries := [] },
                    abandonable := [] }
    transactionProxyModel := some { calls := [] }
    selectionModel := some (rows.map some) }

/-! ## Facts about the calendar -/

theorem floordiv_eq_ediv (a b : Int) (hb : 0 < b) : floordiv a b = a / b := by
  unfold floordiv
  by_cases ha : a < 0
  · rw [if_pos ha, show a - (b - 1) = -(b - 1 - a) by ring, Int.neg_tdiv,
      Int.tdiv_eq_ediv (by omega) (by omega)]
    have hdiv := Int.emod_add_ediv (b - 1 - a) b
    have hnn := Int.emod_nonneg (b - 1 - a) (by omega : b ≠ 0)
    have hlt := Int.emod_lt_of_pos (b - 1 - a) hb
    symm
    have key : a / b = -((b - 1 - a) / b) ∧ a % b = b - 1 - (b - 1 - a) % b := by
      rw [Int.ediv_emod_unique hb]
      refine ⟨?_, by omega, by omega⟩
      have : b * -((b - 1 - a) / b) = -(b * ((b - 1 - a) / b)) := by ring
      omega
    exact key.1
  · rw [if_neg ha, sub_zero, Int.tdiv_eq_ediv (by omega) (by omega)]

theorem dayOfWeek_julian (jd : Int) : (QDate.julian jd).dayOfWeek = jd % 7 + 1 := by
  show (if 0 ≤ jd then Int.tmod jd 7 + 1 else Int.tmod (jd + 1) 7 + 7) = _
  by_cases h : 0 ≤ jd
  · rw [if_pos h, Int.tmod_eq_emod h (by decide)]
  · rw [if_neg h, Int.tmod_def, show jd + 1 = -(-(jd + 1)) by ring, Int.neg_tdiv,
      Int.tdiv_eq_ediv (by omega) (by decide)]
    omega

/-- The arithmetic at the heart of the calendar conversion: from the count of days that
`julianDayFromDate` forms for the year `Y` (counted from March) and the month index `mi`,
`getDateFromJulianDay` recovers `Y`, `mi` and the first day of the month. -/
theorem gregorian_core (Y mi : Int) (h0 : 0 ≤ mi) (h1 : mi ≤ 11) :
    let a := (153 * mi + 2) / 5 + 365 * Y + Y / 4 - Y / 100 + Y / 400
    let b := (4 * a + 3) / 146097
    let c := a - (146097 * b) / 4
    let d := (4 * c + 3) / 1461
    let e := c - (1461 * d) / 4
    let m := (5 * e + 2) / 153
    100 * b + d = Y ∧ m = mi ∧ e - (153 * m + 2) / 5 = 0 := by
  intro a b c d e m
  obtain ⟨q, c1, s, t, hY, hc1, hc1', hs, hs', ht, ht'⟩ :
      ∃ q c1 s t : Int, Y = 400 * q + 100 * c1 + 4 * s + t ∧ 0 ≤ c1 ∧ c1 ≤ 3 ∧ 0 ≤ s ∧ s ≤ 24
        ∧ 0 ≤ t ∧ t ≤ 3 :=
    ⟨Y / 400, Y % 400 / 100, Y % 100 / 4, Y % 4, by omega, by omega, by omega, by omega,
      by omega, by omega, by omega⟩
  have h4 : Y / 4 = 100 * q + 25 * c1 + s := by omega
  have h100 : Y / 100 = 4 * q + c1 := by omega
  have h400 : Y / 400 = q := by omega
  obtain ⟨l, hl, hl0, hl1⟩ : ∃ l : Int, (153 * mi + 2) / 5 = l ∧ 0 ≤ l ∧ l ≤ 337 :=
    ⟨_, rfl, by omega, by omega⟩
  have ha : a = l + 146097 * q + 36524 * c1 + 1461 * s + 365 * t := by
    show (153 * mi + 2) / 5 + 365 * Y + Y / 4 - Y / 100 + Y / 400 = _
    rw [h4, h100, h400, hl, hY]; ring
  have hb : b = 4 * q + c1 := by
    show (4 * a + 3) / 146097 = _
    rw [ha]; omega
  have hc : c = l + 1461 * s + 365 * t := by
    show a - (146097 * b) / 4 = _
    rw [ha, hb]; omega
  have hd : d = 4 * s + t := by
    show (4 * c + 3) / 1461 = _
    rw [hc]; omega
  have he : e = l := by
    show c - (1461 * d) / 4 = _
    rw [hc, hd]; omega
  have hm : m = mi := by
    show (5 * e + 2) / 153 = _
    rw [he, ← hl]; omega
  refine ⟨by omega, hm, ?_⟩
  rw [hm, he, hl]; omega

theorem getDateFromJulianDay_eq (jd : Int) :
    getDateFromJulianDay jd =
      (let a := jd + 32044
       let b := (4 * a + 3) / 146097
       let c := a - (146097 * b) / 4
       let d := (4 * c + 3) / 1461
       let e := c - (1461 * d) / 4
       let m := (5 * e + 2) / 153
       let year := 100 * b + d - 4800 + m / 10
       { year := if year ≤ 0 then year - 1 else year
         month := m + 3 - 12 * (m / 10)
         day := e - (153 * m + 2) / 5 + 1 }) := by
  simp only [getDateFromJulianDay, floordiv_eq_ediv _ _ (by decide : (0 : Int) < 146097),
    floordiv_eq_ediv _ _ (by decide : (0 : Int) < 4),
    floordiv_eq_ediv _ _ (by decide : (0 : Int) < 1461),
    floordiv_eq_ediv _ _ (by decide : (0 : Int) < 153),
    floordiv_eq_ediv _ _ (by decide : (0 : Int) < 5),
    floordiv_eq_ediv _ _ (by decide : (0 : Int) < 10)]

theorem julianDayFromDate_eq (year month day : Int) :
    julianDayFromDate year month day =
      (let year := if year < 0 then year + 1 else year
       let a := (14 - month) / 12
       let y := year + 4800 - a
       let m := month + 12 * a - 3
       day + (153 * m + 2) / 5 + 365 * y + y / 4 - y / 100 + y / 400 - 32045) := by
  simp only [julianDayFromDate, floordiv_eq_ediv _ _ (by decide : (0 : Int) < 12),
    floordiv_eq_ediv _ _ (by decide : (0 : Int) < 4),
    floordiv_eq_ediv _ _ (by decide : (0 : Int) < 100),
    floordiv_eq_ediv _ _ (by decide : (0 : Int) < 400),
    floordiv_eq_ediv _ _ (by decide : (0 : Int) < 5)]

/-- Every Julian day number lies in a month 1 to 12 of a year other than 0. -/
theorem getDateFromJulianDay_valid (jd : Int) :
    (getDateFromJulianDay jd).year ≠ 0 ∧ 1 ≤ (getDateFromJulianDay jd).month ∧
      (getDateFromJulianDay jd).month ≤ 12 := by
  rw [getDateFromJulianDay_eq]
  simp only
  generalize jd + 32044 - 146097 * ((4 * (jd + 32044) + 3) / 146097) / 4 = c
  generalize (4 * (jd + 32044) + 3) / 146097 = b
  obtain ⟨e, he, he0, he1⟩ :
      ∃ e : Int, c - 1461 * ((4 * c + 3) / 1461) / 4 = e ∧ 0 ≤ e ∧ e ≤ 365 :=
    ⟨_, rfl, by omega, by omega⟩
  rw [he]
  generalize (4 * c + 3) / 1461 = d
  obtain ⟨m, hm, hm0, hm1⟩ : ∃ m : Int, (5 * e + 2) / 153 = m ∧ 0 ≤ m ∧ m ≤ 11 :=
    ⟨_, rfl, by omega, by omega⟩
  rw [hm]
  clear he hm
  refine ⟨?_, by omega, by omega⟩
  split <;> omega

/-- The first day of a month of the calendar converts to a Julian day number and back
to itself. -/
theorem getDateFromJulianDay_first (y m : Int) (hy : y ≠ 0) (hm1 : 1 ≤ m) (hm2 : m ≤ 12) :
    getDateFromJulianDay (julianDayFromDate y m 1) = { year := y, month := m, day := 1 } := by
  rw [getDateFromJulianDay_eq, julianDayFromDate_eq]
  simp only
  obtain ⟨Y, hY⟩ : ∃ Y : Int, Y = (if y < 0 then y + 1 else y) + 4800 - (14 - m) / 12 :=
    ⟨_, rfl⟩
  obtain ⟨mi, hmi⟩ : ∃ mi : Int, mi = m + 12 * ((14 - m) / 12) - 3 := ⟨_, rfl⟩
  rw [← hY, ← hmi]
  have hjd : 1 + (153 * mi + 2) / 5 + 365 * Y + Y / 4 - Y / 100 + Y / 400 - 32045 + 32044 =
      (153 * mi + 2) / 5 + 365 * Y + Y / 4 - Y / 100 + Y / 400 := by ring
  rw [hjd]
  have core := gregorian_core Y mi (by omega) (by omega)
  simp only at core
  obtain ⟨h1, h2, h3⟩ := core
  rw [h2] at h3 ⊢
  rw [h1]
  rw [ParsedDate.mk.injEq]
  clear hjd h2
  refine ⟨?_, by clear h1 h3 hY; omega, by clear h1 hY; omega⟩
  have hq : mi / 10 = (14 - m) / 12 := by clear h1 h3 hY; omega
  rw [hq]
  clear h1 h3 hq hmi
  split at hY <;> split <;> omega

theorem ofYMD_first (y m : Int) (hy : y ≠ 0) (hm1 : 1 ≤ m) (hm2 : m ≤ 12) :
    QDate.ofYMD y m 1 = QDate.julian (julianDayFromDate y m 1) := by
  have hdays : (1 : Int) ≤ QDate.monthDays m := by
    unfold QDate.monthDays
    split_ifs <;> omega
  have hv : QDate.isValidYMD y m 1 = true := by
    unfold QDate.isValidYMD
    rw [if_neg hy]
    simp only [Bool.and_eq_true, Bool.or_eq_true, decide_eq_true_eq]
    exact ⟨⟨by omega, by omega, hm2⟩, Or.inl hdays⟩
  unfold QDate.ofYMD
  rw [if_pos hv]

/-- The first day of a month is a valid date with that year, that month and day 1. -/
theorem ofYMD_first_fields (y m : Int) (hy : y ≠ 0) (hm1 : 1 ≤ m) (hm2 : m ≤ 12) :
    (QDate.ofYMD y m 1).isValid = true ∧ (QDate.ofYMD y m 1).year = y ∧
      (QDate.ofYMD y m 1).month = m ∧ (QDate.ofYMD y m 1).day = 1 := by
  rw [ofYMD_first y m hy hm1 hm2]
  simp only [QDate.isValid, QDate.year, QDate.month, QDate.day,
    getDateFromJulianDay_first y m hy hm1 hm2, and_self]

theorem fixedDate_first (y m : Int) (hy : y ≠ 0) (hm1 : 1 ≤ m) (hm2 : m ≤ 12) :
    QDate.fixedDate y m 1 = QDate.ofYMD y m 1 := by
  unfold QDate.fixedDate
  have hdays : (1 : Int) ≤ (QDate.ofYMD y m 1).daysInMonth := by
    rw [ofYMD_first y m hy hm1 hm2]
    simp only [QDate.daysInMonth, getDateFromJulianDay_first y m hy hm1 hm2]
    unfold QDate.monthDays
    split_ifs <;> omega
  rw [min_eq_left hdays]

/-- One month back from the first day of a month is the first day of the month before
it: of December of the previous year for a January. -/
theorem addMonths_neg_one_first (y m : Int) (hy : y ≠ 0) (hm1 : 1 ≤ m) (hm2 : m ≤ 12) :
    (QDate.ofYMD y m 1).addMonths (-1) =
      QDate.ofYMD (if m = 1 then previousYear y else y) (if m = 1 then 12 else m - 1) 1 := by
  rw [ofYMD_first y m hy hm1 hm2]
  have hloop : QDate.addMonthsLoop ((-1 : Int).natAbs + 2) y m (-1) =
      if m = 1 then (y - 1, 12) else (y, m - 1) := by
    show QDate.addMonthsLoop (2 + 1) y m (-1) = _
    unfold QDate.addMonthsLoop
    by_cases h : m = 1
    · subst h; simp
    · have : ¬ (m + -1 ≤ 0) := by omega
      simp [h, this]
      rfl
  simp only [QDate.addMonths, getDateFromJulianDay_first y m hy hm1 hm2, hloop]
  rw [if_neg (by decide)]
  by_cases h : m = 1
  · subst h
    simp only [if_true, previousYear]
    by_cases h1 : y = 1
    · subst h1
      exact fixedDate_first (-1) 12 (by decide) (by decide) (by decide)
    · have hcond : ¬ (0 < y ∧ y - 1 ≤ 0 ∨ y < 0 ∧ 0 ≤ y - 1) := by omega
      rw [if_neg hcond, if_neg h1]
      exact fixedDate_first (y - 1) 12 (by omega) (by decide) (by decide)
  · simp only [if_neg h]
    have hcond : ¬ (0 < y ∧ y ≤ 0 ∨ y < 0 ∧ 0 ≤ y) := by omega
    rw [if_neg hcond]
    exact fixedDate_first y (m - 1) hy (by omega) (by omega)

/-! ## The selection sum -/

theorem toQint64_add_left (a b : Int) : toQint64 (toQint64 a + b) = toQint64 (a + b) := by
  unfold toQint64
  omega

theorem toQint64_of_fits (x : Int) (h1 : -(2 ^ 63) ≤ x) (h2 : x < 2 ^ 63) : toQint64 x = x := by
  unfold toQint64
  omega

theorem toQint64_idem (x : Int) : toQint64 (toQint64 x) = toQint64 x := by
  unfold toQint64
  omega

/-- The rounds of the loop after the first one: the rows named like the first row add
their amounts, the others only count. -/
theorem foldl_computeSumStep_rest (rest : List TransactionRow) (acc : SumState)
    (hi : 1 ≤ acc.i) (hacc : toQint64 acc.amount = acc.amount) :
    (rest.map some).foldl computeSumStep acc =
      { acc with
        i := acc.i + rest.length
        amount := toQint64 (acc.amount +
          ((rest.filter (fun r => r.assetsName = acc.firstAssetName)).map
            (fun r => r.assetsAmount)).sum) } := by
  induction rest generalizing acc with
  | nil => simp [hacc]
  | cons r rest ih =>
    have hne : ¬ (acc.i + 1 = 1) := by omega
    rw [List.map_cons, List.foldl_cons]
    by_cases hname : acc.firstAssetName = r.assetsName
    · have hstep : computeSumStep acc (some r) =
          { acc with i := acc.i + 1, amount := toQint64 (acc.amount + r.assetsAmount) } := by
        simp [computeSumStep, QModelIndex.isValid, QModelIndex.assetsName,
          QModelIndex.assetsAmount, hne, hname]
      rw [hstep, ih _ (by simp; omega) (by simp [toQint64_idem])]
      simp only [List.filter_cons, hname, decide_True, if_true, List.map_cons, List.sum_cons,
        List.length_cons, Nat.cast_add, Nat.cast_one]
      rw [toQint64_add_left, SumState.mk.injEq]
      exact ⟨by rw [add_assoc], rfl, rfl, by omega, rfl⟩
    · have hstep : computeSumStep acc (some r) = { acc with i := acc.i + 1 } := by
        simp [computeSumStep, QModelIndex.isValid, QModelIndex.assetsName, hne, hname]
      have hname2 : ¬ (r.assetsName = acc.firstAssetName) := fun h => hname h.symm
      rw [hstep, ih _ (by simp; omega) (by simpa using hacc)]
      simp only [List.filter_cons, hname2, decide_False, List.length_cons, Nat.cast_add,
        Nat.cast_one]
      rw [SumState.mk.injEq]
      exact ⟨by simp, rfl, rfl, by omega, rfl⟩

/-- C1, as the code has it: for a non-empty selection of valid rows, `computeSum` emits
the text formatted from `S`, with the decimal count and the unit of the first row, where
`S` is the sum of the amounts of the selected rows that carry the asset name of the
first selected row (the first row included) reduced to a signed 64-bit value, as the
running total is a `qint64`; rows of another asset add nothing. Whenever the sum lies
within the signed 64-bit range, `S` is the sum itself. -/
theorem computeSum_sums_first_asset_in_64_bits (ctx : Context) (s : CandyView)
    (first : TransactionRow) (rest : List TransactionRow)
    (hsel : s.selectionModel = some ((first :: rest).map some)) :
    s.computeSum ctx =
        { s with
          effects := s.effects ++
            [Effect.trxAmount
              (if toQint64 (specifiedSum first rest) < 0 then
                "<span style='color:red;'>".toList ++
                  ctx.formatWithUnit first.assetsDecimals (toQint64 (specifiedSum first rest))
                    true SeparatorStyle.separatorAlways true first.amountUnit ++
                  "</span>".toList
              else
                ctx.formatWithUnit first.assetsDecimals (toQint64 (specifiedSum first rest))
                  true SeparatorStyle.separatorAlways true first.amountUnit)] } ∧
      (-(2 ^ 63) ≤ specifiedSum first rest → specifiedSum first rest < 2 ^ 63 →
        toQint64 (specifiedSum first rest) = specifiedSum first rest) := by
  have hfirst : computeSumStep SumState.init (some first) =
      { amount := toQint64 first.assetsAmount, strUnit := first.amountUnit,
        firstAssetName := first.assetsName, i := 1, assetsDecimal := first.assetsDecimals } := by
    simp [computeSumStep, SumState.init, QModelIndex.isValid, QModelIndex.assetsName,
      QModelIndex.assetsAmount, QModelIndex.amountUnit, QModelIndex.assetsDecimals]
  have hsum : toQint64 (toQint64 first.assetsAmount +
      ((rest.filter (fun r => r.assetsName = first.assetsName)).map
        (fun r => r.assetsAmount)).sum) = toQint64 (specifiedSum first rest) := by
    rw [toQint64_add_left]
    have : first.assetsAmount + ((rest.filter (fun r => r.assetsName = first.assetsName)).map
        (fun r => r.assetsAmount)).sum = specifiedSum first rest := by
      simp [specifiedSum, List.filter_cons]
    rw [this]
  refine ⟨?_, fun h1 h2 => toQint64_of_fits _ h1 h2⟩
  unfold CandyView.computeSum
  rw [hsel]
  simp only [List.map_cons, List.isEmpty_cons, Bool.false_eq_true, if_false, List.foldl_cons]
  rw [hfirst, foldl_computeSumStep_rest rest _ (by simp) (by simp [toQint64_idem])]
  simp only [sumText, hsum]

theorem computeSum_sums_first_asset_in_64_bits_witness :
    specifiedSum (sampleRow "assetA" 10) [sampleRow "assetA" 5, sampleRow "assetB" 100] = 15 ∧
      toQint64 15 = 15 ∧
      ((boundView false
          [sampleRow "assetA" 10, sampleRow "assetA" 5, sampleRow "assetB" 100]).computeSum
        sampleContext).effects = [Effect.trxAmount "+15 assetA".toList] :=
  ⟨by decide,
    (computeSum_sums_first_asset_in_64_bits sampleContext
      (boundView false [sampleRow "assetA" 10, sampleRow "assetA" 5, sampleRow "assetB" 100])
      (sampleRow "assetA" 10) [sampleRow "assetA" 5, sampleRow "assetB" 100] rfl).2
      (by decide) (by decide),
    by
      rw [(computeSum_sums_first_asset_in_64_bits sampleContext _ (sampleRow "assetA" 10)
        [sampleRow "assetA" 5, sampleRow "assetB" 100] rfl).1]
      decide⟩

/-- C1, where the claim fails: with 9223372036854775807 units and 1 unit of one asset
selected the sum is 9223372036854775808, the 64-bit running total of `computeSum` wraps
to -9223372036854775808, and the text emitted is formatted from that number, not from
the sum. -/
theorem computeSum_wraps_at_64_bits :
    specifiedSum (sampleRow "assetA" 9223372036854775807) [sampleRow "assetA" 1] =
        9223372036854775808 ∧
      ((boundView false
          [sampleRow "assetA" 9223372036854775807, sampleRow "assetA" 1]).computeSum
        sampleContext).effects =
        [Effect.trxAmount
          "<span style='color:red;'>-9223372036854775808 assetA</span>".toList] ∧
      ((boundView false
          [sampleRow "assetA" 9223372036854775807, sampleRow "assetA" 1]).computeSum
        sampleContext).effects ≠
        [Effect.trxAmount
          (sampleContext.formatWithUnit 4 9223372036854775808 true
            SeparatorStyle.separatorAlways true "assetA".toList)] := by
  decide

/-! ## The filter handlers -/

theorem dropLast_eq_remove_last (s : QString) (h : s.endsWith '.' = true) :
    s.remove ((s.length : Int) - 1) 1 = s.dropLast := by
  have hne : s ≠ [] := by
    intro h0
    rw [h0] at h
    simp [QString.endsWith] at h
  have hlen : 0 < s.length := List.length_pos.mpr hne
  have hpos : (if (s.length : Int) - 1 < 0 then (s.length : Int) - 1 + s.length
      else (s.length : Int) - 1) = (s.length : Int) - 1 := if_neg (by omega)
  unfold QString.remove
  simp only [hpos]
  rw [if_neg (by omega), if_pos (by omega), List.dropLast_eq_take]
  congr 1
  omega

/-- C2: with a filter proxy bound, `changedAmount(s)` passes to `setMinAssetsAmountStr`
the text `s` without its last character when `s` ends with a point, and `s` itself
otherwise; one point is removed and no more. -/
theorem changedAmount_strips_one_point (amount : QString) (s : CandyView)
    (p : TransactionFilterProxy) (hp : s.transactionProxyModel = some p) :
    s.changedAmount amount =
      { s with
        transactionProxyModel := some (p.call (ProxyCall.setMinAssetsAmountStr
          (if amount.getLast? = some '.' then amount.dropLast else amount))) } := by
  unfold CandyView.changedAmount
  rw [hp]
  by_cases h : amount.getLast? = some '.'
  · have he : amount.endsWith '.' = true := by simp [QString.endsWith, h]
    simp only [he, if_true, h, dropLast_eq_remove_last amount he]
  · have he : amount.endsWith '.' = false := by simp [QString.endsWith, h]
    simp only [he, h, if_false, Bool.false_eq_true]

theorem changedAmount_strips_one_point_witness :
    ((boundView false []).changedAmount "12.".toList).transactionProxyModel =
        some { calls := [ProxyCall.setMinAssetsAmountStr "12".toList] } ∧
      ((boundView false []).changedAmount "12..".toList).transactionProxyModel =
        some { calls := [ProxyCall.setMinAssetsAmountStr "12.".toList] } ∧
      ((boundView false []).changedAmount ".".toList).transactionProxyModel =
        some { calls := [ProxyCall.setMinAssetsAmountStr []] } ∧
      ((boundView false []).changedAmount "12.5".toList).transactionProxyModel =
        some { calls := [ProxyCall.setMinAssetsAmountStr "12.5".toList] } := by
  refine ⟨?_, ?_, ?_, ?_⟩ <;>
    rw [changedAmount_strips_one_point _ (boundView false []) { calls := [] } rfl] <;> decide

/-- C3: with a filter proxy bound, `chooseDate` on the ThisWeek preset at the current
date `d` sets the date range of the filter to start at midnight of `d` minus
`dayOfWeek(d) - 1` days and to end at `MAX_DATE`; the day of the week runs from 1 for
Monday to 7 for Sunday, and the start is a valid date, a Monday, not after `d` and at
most 6 days before it. -/
theorem chooseDate_thisWeek_starts_monday (ctx : Context) (d : QDate) (idx : Int)
    (s : CandyView) (p : TransactionFilterProxy) (hd : d.isValid = true)
    (hidx : dateWidgetItemData idx = DateEnum.ThisWeek.toInt)
    (hp : s.transactionProxyModel = some p) :
    (s.chooseDate ctx d idx).transactionProxyModel =
        some (p.call (ProxyCall.setDateRange
          (QDateTime.ofDate (d.addDays (-(d.dayOfWeek - 1)))) ctx.MAX_DATE)) ∧
      (QDateTime.ofDate (d.addDays (-(d.dayOfWeek - 1)))).msecs = 0 ∧
      1 ≤ d.dayOfWeek ∧ d.dayOfWeek ≤ 7 ∧
      (d.addDays (-(d.dayOfWeek - 1))).isValid = true ∧
      (d.addDays (-(d.dayOfWeek - 1))).dayOfWeek = 1 ∧
      0 ≤ (d.addDays (-(d.dayOfWeek - 1))).daysTo d ∧
      (d.addDays (-(d.dayOfWeek - 1))).daysTo d ≤ 6 := by
  refine ⟨?_, rfl, ?_⟩
  · simp [CandyView.chooseDate, hp, hidx, DateEnum.toInt, CandyView.setDateRange]
  · cases d with
    | null => simp [QDate.isValid] at hd
    | julian jd =>
      rw [dayOfWeek_julian]
      simp only [QDate.addDays, QDate.isValid, QDate.daysTo, dayOfWeek_julian]
      refine ⟨by omega, by omega, trivial, by omega, by omega, by omega⟩

theorem chooseDate_thisWeek_starts_monday_witness :
    ((boundView false []).chooseDate sampleContext (QDate.ofYMD 2026 10 30) 2).transactionProxyModel
        = some { calls := [ProxyCall.setDateRange (QDateTime.ofDate (QDate.ofYMD 2026 10 26))
            sampleContext.MAX_DATE] } ∧
      (QDate.ofYMD 2026 10 30).dayOfWeek = 5 ∧ (QDate.ofYMD 2026 10 26).dayOfWeek = 1 := by
  have h := chooseDate_thisWeek_starts_monday sampleContext (QDate.ofYMD 2026 10 30) 2
    (boundView false []) { calls := [] } (by decide) (by decide) rfl
  exact ⟨h.1.trans (by decide), by decide, by decide⟩

/-- C4: with a filter proxy bound, `chooseDate` at the current date `d` on each of the
presets All, Today, ThisMonth, LastMonth and ThisYear leaves the range panel hidden and
sets the date range of the filter: All to `MIN_DATE` and `MAX_DATE`, Today to midnight
of `d` and `MAX_DATE`, ThisMonth to day 1 of the month of `d` and `MAX_DATE`, ThisYear
to 1 January of the year of `d` and `MAX_DATE`, LastMonth to day 1 of the month before
the month of `d` (1 December of the previous year when `d` lies in January) and day 1
of the month of `d`. -/
theorem chooseDate_presets (ctx : Context) (d : QDate) (s : CandyView)
    (p : TransactionFilterProxy) (hd : d.isValid = true)
    (hp : s.transactionProxyModel = some p) :
    (∀ idx, dateWidgetItemData idx = DateEnum.All.toInt →
      (s.chooseDate ctx d idx).dateRangeWidgetVisible = false ∧
      (s.chooseDate ctx d idx).transactionProxyModel =
        some (p.call (ProxyCall.setDateRange ctx.MIN_DATE ctx.MAX_DATE))) ∧
    (∀ idx, dateWidgetItemData idx = DateEnum.Today.toInt →
      (s.chooseDate ctx d idx).dateRangeWidgetVisible = false ∧
      (s.chooseDate ctx d idx).transactionProxyModel =
        some (p.call (ProxyCall.setDateRange (QDateTime.ofDate d) ctx.MAX_DATE))) ∧
    (∀ idx, dateWidgetItemData idx = DateEnum.ThisMonth.toInt →
      (s.chooseDate ctx d idx).dateRangeWidgetVisible = false ∧
      (s.chooseDate ctx d idx).transactionProxyModel =
        some (p.call (ProxyCall.setDateRange
          (QDateTime.ofDate (QDate.ofYMD d.year d.month 1)) ctx.MAX_DATE)) ∧
      (QDate.ofYMD d.year d.month 1).isDay d.year d.month 1) ∧
    (∀ idx, dateWidgetItemData idx = DateEnum.ThisYear.toInt →
      (s.chooseDate ctx d idx).dateRangeWidgetVisible = false ∧
      (s.chooseDate ctx d idx).transactionProxyModel =
        some (p.call (ProxyCall.setDateRange
          (QDateTime.ofDate (QDate.ofYMD d.year 1 1)) ctx.MAX_DATE)) ∧
      (QDate.ofYMD d.year 1 1).isDay d.year 1 1) ∧
    (∀ idx, dateWidgetItemData idx = DateEnum.LastMonth.toInt →
      (s.chooseDate ctx d idx).dateRangeWidgetVisible = false ∧
      (s.chooseDate ctx d idx).transactionProxyModel =
        some (p.call (ProxyCall.setDateRange
          (QDateTime.ofDate (QDate.ofYMD (if d.month = 1 then previousYear d.year else d.year)
            (if d.month = 1 then 12 else d.month - 1) 1))
          (QDateTime.ofDate (QDate.ofYMD d.year d.month 1)))) ∧
      (QDate.ofYMD (if d.month = 1 then previousYear d.year else d.year)
        (if d.month = 1 then 12 else d.month - 1) 1).isDay
          (if d.month = 1 then previousYear d.year else d.year)
          (if d.month = 1 then 12 else d.month - 1) 1 ∧
      (QDate.ofYMD d.year d.month 1).isDay d.year d.month 1) := by
  cases d with
  | null => simp [QDate.isValid] at hd
  | julian jd =>
    obtain ⟨hy, hm1, hm2⟩ := getDateFromJulianDay_valid jd
    have hy2 : (QDate.julian jd).year ≠ 0 := hy
    have hm3 : 1 ≤ (QDate.julian jd).month := hm1
    have hm4 : (QDate.julian jd).month ≤ 12 := hm2
    refine ⟨?_, ?_, ?_, ?_, ?_⟩
    · intro idx hidx
      simp [CandyView.chooseDate, hp, hidx, DateEnum.toInt, CandyView.setDateRange]
    · intro idx hidx
      simp [CandyView.chooseDate, hp, hidx, DateEnum.toInt, CandyView.setDateRange]
    · intro idx hidx
      refine ⟨?_, ?_, ofYMD_first_fields _ _ hy2 hm3 hm4⟩ <;>
        simp [CandyView.chooseDate, hp, hidx, DateEnum.toInt, CandyView.setDateRange]
    · intro idx hidx
      refine ⟨?_, ?_, ofYMD_first_fields _ _ hy2 (by decide) (by decide)⟩ <;>
        simp [CandyView.chooseDate, hp, hidx, DateEnum.toInt, CandyView.setDateRange]
    · intro idx hidx
      have hprev : (if (QDate.julian jd).month = 1 then previousYear (QDate.julian jd).year
          else (QDate.julian jd).year) ≠ 0 := by
        unfold previousYear
        split_ifs <;> omega
      refine ⟨?_, ?_, ofYMD_first_fields _ _ hprev (by split_ifs <;> omega)
        (by split_ifs <;> omega), ofYMD_first_fields _ _ hy2 hm3 hm4⟩
      · simp [CandyView.chooseDate, hp, hidx, DateEnum.toInt, CandyView.setDateRange]
      · rw [← addMonths_neg_one_first _ _ hy2 hm3 hm4]
        simp [CandyView.chooseDate, hp, hidx, DateEnum.toInt, CandyView.setDateRange]

theorem chooseDate_presets_witness :
    ((boundView false []).chooseDate sampleContext (QDate.ofYMD 2026 1 30) 4).transactionProxyModel
      = some { calls := [ProxyCall.setDateRange (QDateTime.ofDate (QDate.ofYMD 2025 12 1))
          (QDateTime.ofDate (QDate.ofYMD 2026 1 1))] } ∧
    ((boundView false []).chooseDate sampleContext (QDate.ofYMD 2026 10 30) 3).transactionProxyModel
      = some { calls := [ProxyCall.setDateRange (QDateTime.ofDate (QDate.ofYMD 2026 10 1))
          sampleContext.MAX_DATE] } := by
  have h1 := chooseDate_presets sampleContext (QDate.ofYMD 2026 1 30) (boundView false [])
    { calls := [] } (by decide) rfl
  have h2 := chooseDate_presets sampleContext (QDate.ofYMD 2026 10 30) (boundView false [])
    { calls := [] } (by decide) rfl
  exact ⟨(h1.2.2.2.2 4 (by decide)).2.1.trans (by decide),
    (h2.2.2.1 3 (by decide)).2.1.trans (by decide)⟩

/-- C5: with a filter proxy bound, `chooseDate` on the Range preset shows the range
panel and sets the date range of the filter to midnight of the date `f` of the first
picker and midnight of the date `t` of the second, in that order and as they are; the
pickers keep their dates. -/
theorem chooseDate_range_applies_pickers (ctx : Context) (d f t : QDate) (idx : Int)
    (s : CandyView) (p : TransactionFilterProxy)
    (hidx : dateWidgetItemData idx = DateEnum.Range.toInt)
    (hp : s.transactionProxyModel = some p) (hf : s.dateFrom = f) (ht : s.dateTo = t) :
    (s.chooseDate ctx d idx).dateRangeWidgetVisible = true ∧
      (s.chooseDate ctx d idx).transactionProxyModel =
        some (p.call (ProxyCall.setDateRange (QDateTime.ofDate f) (QDateTime.ofDate t))) ∧
      (QDateTime.ofDate f) = { date := f, msecs := 0 } ∧
      (QDateTime.ofDate t) = { date := t, msecs := 0 } ∧
      (s.chooseDate ctx d idx).dateFrom = f ∧ (s.chooseDate ctx d idx).dateTo = t := by
  subst hf ht
  refine ⟨?_, ?_, rfl, rfl, ?_, ?_⟩ <;>
    simp [CandyView.chooseDate, CandyView.dateRangeChanged, hp, hidx, DateEnum.toInt]

theorem chooseDate_range_applies_pickers_witness :
    ((boundView false []).chooseDate sampleContext (QDate.julian 2461000) 6).dateRangeWidgetVisible
        = true ∧
      ((boundView false []).chooseDate sampleContext (QDate.julian 2461000) 6).transactionProxyModel
        = some { calls := [ProxyCall.setDateRange (QDateTime.ofDate (QDate.julian 2461344))
            (QDateTime.ofDate (QDate.julian 2461345))] } := by
  have h := chooseDate_range_applies_pickers sampleContext (QDate.julian 2461000)
    (QDate.julian 2461344) (QDate.julian 2461345) 6 (boundView false []) { calls := [] }
    (by decide) rfl rfl rfl
  exact ⟨h.1, h.2.1⟩

/-- C6: `computeSum` emits `trxAmount` once, and does nothing else, when the table has
a selection model and the list of selected rows is not empty; it leaves the state as it
is, emitting nothing, when the selection is empty or there is no selection model. -/
theorem computeSum_emits_once_or_nothing (ctx : Context) (s : CandyView) :
    (∀ selection, s.selectionModel = some selection → selection ≠ [] →
      ∃ text, s.computeSum ctx = { s with effects := s.effects ++ [Effect.trxAmount text] }) ∧
    (s.selectionModel = some [] → s.computeSum ctx = s) ∧
    (s.selectionModel = none → s.computeSum ctx = s) := by
  refine ⟨?_, ?_, ?_⟩
  · intro selection hsel hne
    refine ⟨sumText ctx (selection.foldl computeSumStep SumState.init), ?_⟩
    cases selection with
    | nil => exact absurd rfl hne
    | cons a l => simp [CandyView.computeSum, hsel]
  · intro hsel
    simp [CandyView.computeSum, hsel]
  · intro hsel
    simp [CandyView.computeSum, hsel]

theorem computeSum_emits_once_or_nothing_witness :
    (∃ text, (boundView false [sampleRow "assetA" 10]).computeSum sampleContext =
        { boundView false [sampleRow "assetA" 10] with effects := [Effect.trxAmount text] }) ∧
      (boundView false []).computeSum sampleContext = boundView false [] ∧
      unboundView.computeSum sampleContext = unboundView :=
  ⟨(computeSum_emits_once_or_nothing sampleContext (boundView false [sampleRow "assetA" 10])).1
      [some (sampleRow "assetA" 10)] rfl (by decide),
    (computeSum_emits_once_or_nothing sampleContext (boundView false [])).2.1 rfl,
    (computeSum_emits_once_or_nothing sampleContext unboundView).2.2 rfl⟩

/-- C9: while no filter proxy is bound, each of `chooseDate`, `changedAssetsName`,
`chooseWatchonly`, `changedPrefix`, `changedAmount` and `dateRangeChanged` returns the
state it was given, whatever its argument: no setter is called, the range panel and the
settings stay as they are. -/
theorem filter_handlers_noop_when_unbound (s : CandyView)
    (hp : s.transactionProxyModel = none) :
    (∀ (ctx : Context) (d : QDate) (idx : Int), s.chooseDate ctx d idx = s) ∧
      (∀ assetsName : QString, s.changedAssetsName assetsName = s) ∧
      (∀ idx : Int, s.chooseWatchonly idx = s) ∧
      (∀ addrPrefix : QString, s.changedPrefix addrPrefix = s) ∧
      (∀ amount : QString, s.changedAmount amount = s) ∧
      s.dateRangeChanged = s := by
  refine ⟨?_, ?_, ?_, ?_, ?_, ?_⟩
  · intro ctx d idx
    simp [CandyView.chooseDate, hp]
  · intro a
    simp [CandyView.changedAssetsName, hp]
  · intro idx
    simp [CandyView.chooseWatchonly, hp]
  · intro a
    simp [CandyView.changedPrefix, hp]
  · intro a
    simp [CandyView.changedAmount, hp]
  · simp [CandyView.dateRangeChanged, hp]

theorem filter_handlers_noop_when_unbound_witness :
    unboundView.chooseDate sampleContext (QDate.julian 2461344) 6 = unboundView ∧
      unboundView.changedAmount "12.".toList = unboundView ∧
      unboundView.dateRangeChanged = unboundView :=
  ⟨(filter_handlers_noop_when_unbound unboundView rfl).1 _ _ _,
    (filter_handlers_noop_when_unbound unboundView rfl).2.2.2.2.1 _,
    (filter_handlers_noop_when_unbound unboundView rfl).2.2.2.2.2⟩

/-! ## The settings -/

theorem value_setValue_same (st : QSettings) (key : String) (v : QVariant) :
    (st.setValue key v).value key = some v := by
  simp [QSettings.setValue, QSettings.value, List.lookup]

theorem value_setValue_other (st : QSettings) (key other : String) (v : QVariant)
    (h : other ≠ key) : (st.setValue key v).value other = st.value other := by
  have hb : (other == key) = false := by simpa using h
  simp only [QSettings.setValue, QSettings.value, List.lookup, hb]
  induction st with
  | nil => rfl
  | cons e st ih =>
    obtain ⟨k, w⟩ := e
    by_cases hk : k = key
    · subst hk
      simp [List.filter_cons, List.lookup, hb, ih]
    · by_cases ho : other = k
      · subst ho
        simp [List.filter_cons, List.lookup, hk]
      · have hb2 : (other == k) = false := by simpa using ho
        simp [List.filter_cons, List.lookup, hk, hb2, ih]

/-- C10, as the code has it: with a filter proxy bound, after `chooseDate(idx)` the
settings map `transactionDate` to `idx` for every `idx`, and on the Range preset they
map `transactionDateFrom` and `transactionDateTo` to the dates of the two pickers in
the format `yyyy-MM-dd`; after `dateRangeChanged()` the two keys hold the dates of the
pickers in that format as well. -/
theorem preferences_persist_when_bound (ctx : Context) (d : QDate) (idx : Int)
    (s : CandyView) (p : TransactionFilterProxy) (hp : s.transactionProxyModel = some p) :
    (s.chooseDate ctx d idx).settings.value "transactionDate" = some (QVariant.int idx) ∧
      (dateWidgetItemData idx = DateEnum.Range.toInt →
        (s.chooseDate ctx d idx).settings.value "transactionDateFrom" =
            some (QVariant.string (s.dateFrom.toString "yyyy-MM-dd".toList)) ∧
          (s.chooseDate ctx d idx).settings.value "transactionDateTo" =
            some (QVariant.string (s.dateTo.toString "yyyy-MM-dd".toList))) ∧
      s.dateRangeChanged.settings.value "transactionDateFrom" =
        some (QVariant.string (s.dateFrom.toString "yyyy-MM-dd".toList)) ∧
      s.dateRangeChanged.settings.value "transactionDateTo" =
        some (QVariant.string (s.dateTo.toString "yyyy-MM-dd".toList)) := by
  have hFromTo : ("transactionDateFrom" : String) ≠ "transactionDateTo" := by decide
  have hDateFrom : ("transactionDate" : String) ≠ "transactionDateFrom" := by decide
  have hDateTo : ("transactionDate" : String) ≠ "transactionDateTo" := by decide
  refine ⟨?_, ?_, ?_, ?_⟩
  · by_cases hidx : dateWidgetItemData idx = DateEnum.Range.toInt
    · simp only [CandyView.chooseDate, hp, hidx, if_true]
      rw [value_setValue_other _ _ _ _ hDateTo, value_setValue_other _ _ _ _ hDateFrom,
        value_setValue_same]
    · simp only [CandyView.chooseDate, hp, hidx, if_false]
      rw [value_setValue_same]
  · intro hidx
    constructor
    · simp only [CandyView.chooseDate, hp, hidx, if_true]
      rw [value_setValue_other _ _ _ _ hFromTo, value_setValue_same]
      simp [DateEnum.toInt, CandyView.dateRangeChanged, PERSISTENCE_DATE_FORMAT]
    · simp only [CandyView.chooseDate, hp, hidx, if_true]
      rw [value_setValue_same]
      simp [DateEnum.toInt, CandyView.dateRangeChanged, PERSISTENCE_DATE_FORMAT]
  · simp only [CandyView.dateRangeChanged, hp]
    rw [value_setValue_other _ _ _ _ hFromTo, value_setValue_same]
    rfl
  · simp only [CandyView.dateRangeChanged, hp]
    rw [value_setValue_same]
    rfl

theorem preferences_persist_when_bound_witness :
    ((boundView false []).chooseDate sampleContext (QDate.julian 2461000) 6).settings.value
        "transactionDate" = some (QVariant.int 6) ∧
      ((boundView false []).chooseDate sampleContext (QDate.julian 2461000) 6).settings.value
        "transactionDateFrom" = some (QVariant.string "2026-10-30".toList) ∧
      (boundView false []).dateRangeChanged.settings.value "transactionDateTo" =
        some (QVariant.string "2026-10-31".toList) := by
  have h := preferences_persist_when_bound sampleContext (QDate.julian 2461000) 6
    (boundView false []) { calls := [] } rfl
  exact ⟨h.1, (h.2.1 (by decide)).1.trans (by decide), h.2.2.2.trans (by decide)⟩

/-- C10, where the claim fails: on a view without a filter proxy `chooseDate(3)` and
`dateRangeChanged()` return before they write, and the settings hold none of the
keys. -/
theorem preferences_not_persisted_when_unbound :
    (unboundView.chooseDate sampleContext (QDate.julian 2461344) 3).settings.value
        "transactionDate" = none ∧
      unboundView.dateRangeChanged.settings.value "transactionDateFrom" = none ∧
      unboundView.dateRangeChanged.settings.value "transactionDateTo" = none := by
  decide

/-! ## The export -/

/-- With a wallet model and its options model bound, an export under a chosen file
name registers the columns Confirmed, Watch-only (when the wallet has a watch-only
balance), Date, Asset Name, Address, the amount and ID, in this order: 7 columns with a
watch-only balance and 6 without. It hands them to the writer and reports the outcome
in one message. -/
theorem exportClicked_columns_when_bound (ctx : Context) (filename : QString) (writeOk : Bool)
    (s : CandyView) (model : WalletModel) (options : OptionsModel)
    (hm : s.model = some model) (ho : model.optionsModel = some options) :
    ∃ columns title text style,
      s.exportClicked ctx (some filename) writeOk =
        some { s with
          effects := s.effects ++
            [Effect.csvWrite
                { filename := filename, model := s.transactionProxyModel, columns := columns },
              Effect.message title text style] } ∧
      columns.map (fun c => c.title) =
        (if model.haveWatchOnly = true then
          [ctx.tr "Confirmed".toList, ctx.tr "Watch-only".toList, ctx.tr "Date".toList,
            ctx.tr "Asset Name".toList, ctx.tr "Address".toList,
            ctx.getAmountColumnTitle options.displayUnit, ctx.tr "ID".toList]
        else
          [ctx.tr "Confirmed".toList, ctx.tr "Date".toList, ctx.tr "Asset Name".toList,
            ctx.tr "Address".toList, ctx.getAmountColumnTitle options.displayUnit,
            ctx.tr "ID".toList]) ∧
      columns.length = (if model.haveWatchOnly = true then 7 else 6) := by
  cases hw : model.haveWatchOnly <;> cases writeOk <;>
    exact ⟨_, _, _, _, by
      simp only [CandyView.exportClicked, hm, ho, hw, CSVModelWriter.addColumn,
        CSVModelWriter.setModel, Option.map_some',
        Option.getD_some, List.nil_append, List.cons_append, List.append_assoc, if_true,
        if_false, Bool.not_true, Bool.not_false, Bool.false_eq_true]
      rfl, by simp, by simp⟩

/-- C7, where the code stops short: on a view without a wallet model an export under
the chosen file name `candy.csv` dereferences the null `model` when it asks for the
display unit, after the first four columns and before any column list reaches the
writer. -/
theorem exportClicked_without_model_fails :
    unboundView.exportClicked sampleContext (some "candy.csv".toList) true = none := by
  decide

/-! ## The explorer link -/

theorem placeholder_eq : ("%s".toList : QString) = ['%', 's'] := rfl

theorem replace_placeholder_nil (h : QString) : QString.replace [] "%s".toList h = [] := by
  simp [QString.replace, placeholder_eq, QString.replaceGo]

theorem replace_placeholder_match (r h : QString) :
    QString.replace ('%' :: 's' :: r) "%s".toList h = h ++ QString.replace r "%s".toList h := by
  simp [QString.replace, placeholder_eq, QString.replaceGo, List.isPrefixOf]

theorem replace_placeholder_other (c : Char) (r h : QString)
    (hc : ¬ (c = '%' ∧ r.head? = some 's')) :
    QString.replace (c :: r) "%s".toList h = c :: QString.replace r "%s".toList h := by
  have hpre : List.isPrefixOf ['%', 's'] (c :: r) = false := by
    cases r with
    | nil => simp [List.isPrefixOf]
    | cons e r =>
      simp only [List.head?_cons, Option.some.injEq] at hc
      simp only [List.isPrefixOf, Bool.and_true, Bool.and_eq_false_imp, beq_iff_eq,
        beq_eq_false_iff_ne, ne_eq]
      intro h1 h2
      exact hc ⟨h1.symm, h2.symm⟩
  simp [QString.replace, placeholder_eq, QString.replaceGo, hpre]

/-- An occurrence of the placeholder splits the replacement: what stands before it and
what stands after it are replaced on their own. -/
theorem replace_placeholder_append (a b h : QString) :
    QString.replace (a ++ "%s".toList ++ b) "%s".toList h =
      QString.replace a "%s".toList h ++ h ++ QString.replace b "%s".toList h := by
  suffices hall : ∀ (n : Nat) (a : QString), a.length = n →
      QString.replace (a ++ "%s".toList ++ b) "%s".toList h =
        QString.replace a "%s".toList h ++ h ++ QString.replace b "%s".toList h from
    hall a.length a rfl
  intro n
  induction n using Nat.strong_induction_on with
  | _ n ih =>
    intro a hn
    match a, hn with
    | [], _ =>
      rw [replace_placeholder_nil]
      exact replace_placeholder_match b h
    | [c], _ =>
      have h1 : QString.replace ([c] ++ "%s".toList ++ b) "%s".toList h =
          c :: QString.replace ('%' :: 's' :: b) "%s".toList h :=
        replace_placeholder_other c ('%' :: 's' :: b) h (by simp)
      rw [h1, replace_placeholder_match, replace_placeholder_other c [] h (by simp),
        replace_placeholder_nil]
      rfl
    | c :: e :: r, hlen =>
      by_cases hc : c = '%' ∧ e = 's'
      · obtain ⟨rfl, rfl⟩ := hc
        have h1 : QString.replace ('%' :: 's' :: r ++ "%s".toList ++ b) "%s".toList h =
            h ++ QString.replace (r ++ "%s".toList ++ b) "%s".toList h :=
          replace_placeholder_match (r ++ "%s".toList ++ b) h
        rw [h1, replace_placeholder_match, ih r.length (by simp at hlen; omega) r rfl]
        simp [List.append_assoc]
      · have h1 : QString.replace (c :: e :: r ++ "%s".toList ++ b) "%s".toList h =
            c :: QString.replace (e :: r ++ "%s".toList ++ b) "%s".toList h :=
          replace_placeholder_other c (e :: r ++ "%s".toList ++ b) h (by simpa using hc)
        rw [h1, replace_placeholder_other c (e :: r) h (by simpa using hc),
          ih (e :: r).length (by simp at hlen ⊢; omega) (e :: r) rfl]
        rfl

/-- A text without the placeholder is left as it is. -/
theorem replace_placeholder_absent (u h : QString) (hu : ¬ List.IsInfix "%s".toList u) :
    QString.replace u "%s".toList h = u := by
  induction u with
  | nil => exact replace_placeholder_nil h
  | cons c r ih =>
    have hr : ¬ List.IsInfix "%s".toList r := fun hin => hu (List.infix_cons hin)
    have hc : ¬ (c = '%' ∧ r.head? = some 's') := by
      rintro ⟨rfl, hs⟩
      cases r with
      | nil => simp at hs
      | cons e r =>
        simp only [List.head?_cons, Option.some.injEq] at hs
        subst hs
        exact hu ⟨[], r, rfl⟩
    rw [replace_placeholder_other c r h hc, ih hr]

/-- C8: with a non-empty selection whose first row has the transaction hash `h`,
`openThirdPartyTxUrl(u)` opens the URL built from `u` with `%s` replaced by `h`, and it
opens nothing when the selection is empty or there is no selection model. Replacing
treats every occurrence of `%s` (the text before and the text after an occurrence are
replaced on their own) and changes nothing else (a text without `%s` stays as it is);
`https://example.com/tx/%s` with the hash `abc123` gives
`https://example.com/tx/abc123`. -/
theorem openThirdPartyTxUrl_substitutes_hash (url : QString) (s : CandyView) :
    (∀ (first : QModelIndex) (rest : List QModelIndex),
      s.selectionModel = some (first :: rest) →
      s.openThirdPartyTxUrl url =
        { s with
          effects := s.effects ++
            [Effect.openUrl (QUrl.fromUserInput (url.replace "%s".toList first.txHash))] }) ∧
    (s.selectionModel = some [] → s.openThirdPartyTxUrl url = s) ∧
    (s.selectionModel = none → s.openThirdPartyTxUrl url = s) ∧
    (∀ a b h : QString, url = a ++ "%s".toList ++ b →
      url.replace "%s".toList h =
        QString.replace a "%s".toList h ++ h ++ QString.replace b "%s".toList h) ∧
    (∀ h : QString, ¬ List.IsInfix "%s".toList url → url.replace "%s".toList h = url) ∧
    QString.replace "https://example.com/tx/%s".toList "%s".toList "abc123".toList =
      "https://example.com/tx/abc123".toList := by
  refine ⟨?_, ?_, ?_, ?_, ?_, by decide⟩
  · intro first rest hsel
    simp [CandyView.openThirdPartyTxUrl, hsel]
  · intro hsel
    simp [CandyView.openThirdPartyTxUrl, hsel]
  · intro hsel
    simp [CandyView.openThirdPartyTxUrl, hsel]
  · intro a b h hurl
    rw [hurl]
    exact replace_placeholder_append a b h
  · intro h hu
    exact replace_placeholder_absent url h hu

theorem openThirdPartyTxUrl_substitutes_hash_witness :
    ((boundView false [sampleRow "assetA" 10]).openThirdPartyTxUrl
        "https://example.com/tx/%s".toList).effects =
      [Effect.openUrl (QUrl.fromUserInput "https://example.com/tx/abc123".toList)] ∧
    (boundView false []).openThirdPartyTxUrl "https://example.com/tx/%s".toList =
      boundView false [] := by
  have h := openThirdPartyTxUrl_substitutes_hash "https://example.com/tx/%s".toList
  refine ⟨?_, (h (boundView false [])).2.1 rfl⟩
  rw [(h (boundView false [sampleRow "assetA" 10])).1 (some (sampleRow "assetA" 10)) [] rfl]
  decide

/-! ## The watch-only column -/

/-- C12: after `updateWatchOnlyColumn(b)` the watch-only column of the table is hidden
exactly when `b` is false, the watch-only filter box is visible for either `b`, and
every other member of the view is as it was. -/
theorem updateWatchOnlyColumn_sets_column (b : Bool) (s : CandyView) :
    ((s.updateWatchOnlyColumn b).watchOnlyColumnHidden = true ↔ b = false) ∧
      (s.updateWatchOnlyColumn b).watchOnlyWidgetVisible = true ∧
      s.updateWatchOnlyColumn b =
        { s with watchOnlyWidgetVisible := true, watchOnlyColumnHidden := !b } ∧
      (s.updateWatchOnlyColumn b).model = s.model ∧
      (s.updateWatchOnlyColumn b).transactionProxyModel = s.transactionProxyModel ∧
      (s.updateWatchOnlyColumn b).selectionModel = s.selectionModel ∧
      (s.updateWatchOnlyColumn b).dateRangeWidgetVisible = s.dateRangeWidgetVisible ∧
      (s.updateWatchOnlyColumn b).dateFrom = s.dateFrom ∧
      (s.updateWatchOnlyColumn b).dateTo = s.dateTo ∧
      (s.updateWatchOnlyColumn b).abandonActionEnabled = s.abandonActionEnabled ∧
      (s.updateWatchOnlyColumn b).settings = s.settings ∧
      (s.updateWatchOnlyColumn b).effects = s.effects := by
  refine ⟨?_, rfl, rfl, rfl, rfl, rfl, rfl, rfl, rfl, rfl, rfl, rfl⟩
  cases b <;> simp [CandyView.updateWatchOnlyColumn]

/-! ## The handlers that read the selection -/

/-- Four of the handlers that read the selection test it first: with a selection model
and nothing selected `computeSum`, `showDetails`, `editLabel` and `openThirdPartyTxUrl`
return the state they were given. -/
theorem guarded_handlers_noop_on_empty_selection (ctx : Context) (url : QString)
    (s : CandyView) (h : s.selectionModel = some []) :
    s.computeSum ctx = s ∧ s.showDetails = s ∧ s.editLabel = s ∧
      s.openThirdPartyTxUrl url = s := by
  refine ⟨?_, ?_, ?_, ?_⟩
  · simp [CandyView.computeSum, h]
  · simp [CandyView.showDetails, h]
  · unfold CandyView.editLabel
    rw [h]
    cases s.model <;> rfl
  · simp [CandyView.openThirdPartyTxUrl, h]

/-- The two handlers without the test: with a selection model and nothing selected
`abandonTx`, and `contextualMenu` at a valid index, go on to `selection.at(0)`. -/
theorem unguarded_handlers_read_empty_selection (s : CandyView) (row : TransactionRow)
    (h : s.selectionModel = some []) :
    s.abandonTx = none ∧ s.contextualMenu (some row) = none := by
  constructor
  · simp [CandyView.abandonTx, h]
  · simp [CandyView.contextualMenu, QModelIndex.isValid, h]

/-- C11, where the code stops short: on a view with a wallet model bound and no row
selected, `abandonTx()` and `contextualMenu` at a valid index read element 0 of the
empty selection instead of returning. -/
theorem abandonTx_contextualMenu_read_empty_selection :
    (boundView false []).abandonTx = none ∧
      (boundView false []).contextualMenu (some (sampleRow "assetA" 10)) = none := by
  decide

/-- With a row selected and a wallet model bound the two handlers do their work:
`abandonTx` calls `abandonTransaction` and then `updateTransaction` with the hash of the
first selected row, `contextualMenu` sets the abandon action and runs the menu. -/
theorem abandonTx_contextualMenu_on_selection (s : CandyView) (first : QModelIndex)
    (rest : List QModelIndex) (row : TransactionRow) (model : WalletModel)
    (h : s.selectionModel = some (first :: rest)) (hm : s.model = some model) :
    s.abandonTx =
        some { s with
          effects := s.effects ++
            [Effect.abandonTransaction (uint256.SetHex first.txHash),
              Effect.updateTransaction first.txHash ChangeType.CT_UPDATED false] } ∧
      s.contextualMenu (some row) =
        some { s with
          abandonActionEnabled := model.transactionCanBeAbandoned (uint256.SetHex first.txHash)
          effects := s.effects ++ [Effect.contextMenuExec] } := by
  constructor
  · simp [CandyView.abandonTx, h, hm]
  · simp [CandyView.contextualMenu, QModelIndex.isValid, h, hm]

/-! ## The sources of the exported columns -/

/-- With a wallet model that has a watch-only balance and its options model bound, the
columns handed to the writer are these seven. Six of them read model column 0 under
their role; the Watch-only column is added with two arguments, so it reads the model
column numbered like `WatchonlyRole` under `Qt::EditRole`, which is not column 0 under
`WatchonlyRole` whatever the numbering of the roles. -/
theorem exportClicked_column_sources (ctx : Context) (filename : QString) (writeOk : Bool)
    (s : CandyView) (model : WalletModel) (options : OptionsModel)
    (hm : s.model = some model) (ho : model.optionsModel = some options)
    (hw : model.haveWatchOnly = true) :
    (∃ title text style,
      s.exportClicked ctx (some filename) writeOk =
        some { s with
          effects := s.effects ++
            [Effect.csvWrite
                { filename := filename, model := s.transactionProxyModel,
                  columns :=
                    [{ title := ctx.tr "Confirmed".toList, column := 0,
                       role := ctx.role RoleIndex.ConfirmedRole },
                     { title := ctx.tr "Watch-only".toList,
                       column := ctx.role RoleIndex.WatchonlyRole, role := EditRole },
                     { title := ctx.tr "Date".toList, column := 0,
                       role := ctx.role RoleIndex.DateRole },
                     { title := ctx.tr "Asset Name".toList, column := 0,
                       role := ctx.role RoleIndex.AssetsNameRole },
                     { title := ctx.tr "Address".toList, column := 0,
                       role := ctx.role RoleIndex.AddressRole },
                     { title := ctx.getAmountColumnTitle options.displayUnit, column := 0,
                       role := ctx.role RoleIndex.FormattedAmountRole },
                     { title := ctx.tr "ID".toList, column := 0,
                       role := ctx.role RoleIndex.TxIDRole }] },
              Effect.message title text style] }) ∧
      ({ title := ctx.tr "Watch-only".toList, column := ctx.role RoleIndex.WatchonlyRole,
         role := EditRole } : CSVColumn) ≠
        { title := ctx.tr "Watch-only".toList, column := 0,
          role := ctx.role RoleIndex.WatchonlyRole } := by
  constructor
  · cases writeOk <;>
      exact ⟨_, _, _, by
        simp only [CandyView.exportClicked, hm, ho, hw, CSVModelWriter.addColumn,
          CSVModelWriter.setModel, Option.map_some', Option.getD_some, List.nil_append,
          List.cons_append, List.append_assoc, if_true, if_false, Bool.not_true, Bool.not_false,
          Bool.false_eq_true]
        rfl⟩
  · intro heq
    rw [CSVColumn.mk.injEq] at heq
    obtain ⟨_, h1, h2⟩ := heq
    rw [h1] at h2
    exact absurd h2 (by decide)

/-- C13, where the code stops short: an export from a view whose wallet has a
watch-only balance registers the Watch-only column with column 258, the number of
`WatchonlyRole` in the sample numbering, and role 2, `Qt::EditRole`; the other six
columns read column 0 under their own role. -/
theorem exportClicked_watchonly_column_source :
    (boundView true []).exportClicked sampleContext (some "candy.csv".toList) true =
      some { boundView true [] with
        effects :=
          [Effect.csvWrite
              { filename := "candy.csv".toList, model := some { calls := [] },
                columns :=
                  [{ title := "Confirmed".toList, column := 0, role := 268 },
                   { title := "Watch-only".toList, column := 258, role := 2 },
                   { title := "Date".toList, column := 0, role := 257 },
                   { title := "Asset Name".toList, column := 0, role := 272 },
                   { title := "Address".toList, column := 0, role := 261 },
                   { title := "Amount (SAFE)".toList, column := 0, role := 269 },
                   { title := "ID".toList, column := 0, role := 264 }] },
            Effect.message "Exporting Successful".toList
              "The get candy history was successfully saved to candy.csv.".toList
              MessageStyle.MSG_INFORMATION] } := by
  decide

/-! ## The binding of wallet model and filter proxy -/

theorem chooseDate_keeps_binding (ctx : Context) (d : QDate) (idx : Int) (s : CandyView) :
    (s.chooseDate ctx d idx).model = s.model ∧
      (s.chooseDate ctx d idx).transactionProxyModel.isSome = s.transactionProxyModel.isSome := by
  unfold CandyView.chooseDate
  cases hp : s.transactionProxyModel with
  | none => simp [hp]
  | some p =>
    simp only [CandyView.setDateRange, CandyView.dateRangeChanged, hp]
    constructor <;> (split_ifs <;> simp)

theorem setModel_binding (ctx : Context) (d : QDate) (m : Option WalletModel) (s : CandyView) :
    (s.setModel ctx d m).model = m ∧
      (s.setModel ctx d m).transactionProxyModel.isSome =
        (m.isSome || s.transactionProxyModel.isSome) := by
  cases m with
  | none => simp [CandyView.setModel]
  | some w =>
    simp only [CandyView.setModel]
    rw [(chooseDate_keeps_binding _ _ _ _).1, (chooseDate_keeps_binding _ _ _ _).2]
    simp [CandyView.updateWatchOnlyColumn]

theorem setModels_binding_from (ctx : Context) (calls : List (QDate × Option WalletModel))
    (s : CandyView) :
    (s.setModels ctx calls).model = (match calls.getLast? with
      | none => s.model
      | some c => c.2) ∧
    (s.setModels ctx calls).transactionProxyModel.isSome =
      (s.transactionProxyModel.isSome || calls.any (fun c => c.2.isSome)) := by
  induction calls generalizing s with
  | nil => simp [CandyView.setModels]
  | cons c calls ih =>
    have hstep : s.setModels ctx (c :: calls) = (s.setModel ctx c.1 c.2).setModels ctx calls := rfl
    rw [hstep]
    obtain ⟨h1, h2⟩ := ih (s.setModel ctx c.1 c.2)
    obtain ⟨g1, g2⟩ := setModel_binding ctx c.1 c.2 s
    constructor
    · rw [h1, g1]
      cases calls with
      | nil => rfl
      | cons e calls =>
        rw [List.getLast?_cons_cons]
        cases hl : (e :: calls).getLast? with
        | none => simp at hl
        | some x => rfl
    · rw [h2, g2]
      simp only [List.any_cons]
      cases c.2.isSome <;> cases s.transactionProxyModel.isSome <;> simp

/-- C14, as the code has it: in every state reached from the constructor by a sequence
of `setModel` calls, a filter proxy is bound whenever a wallet model is bound; a filter
proxy is bound exactly when some call so far was given a wallet model, the wallet model
is the argument of the last call, and `setModel(null)` unbinds the wallet model and
leaves the filter proxy as it was. -/
theorem setModels_proxy_follows_model (ctx : Context) (settings : QSettings)
    (dateFrom dateTo : QDate) (calls : List (QDate × Option WalletModel)) :
    (((CandyView.construct settings dateFrom dateTo).setModels ctx calls).model.isSome = true →
      ((CandyView.construct settings dateFrom dateTo).setModels ctx
        calls).transactionProxyModel.isSome = true) ∧
    (((CandyView.construct settings dateFrom dateTo).setModels ctx
        calls).transactionProxyModel.isSome = true ↔ ∃ c ∈ calls, c.2.isSome = true) ∧
    ((CandyView.construct settings dateFrom dateTo).setModels ctx calls).model =
      calls.getLast?.bind (fun c => c.2) ∧
    (∀ d : QDate,
      (((CandyView.construct settings dateFrom dateTo).setModels ctx calls).setModel ctx d
          none).model = none ∧
        (((CandyView.construct settings dateFrom dateTo).setModels ctx calls).setModel ctx d
          none).transactionProxyModel =
          ((CandyView.construct settings dateFrom dateTo).setModels ctx
            calls).transactionProxyModel) := by
  obtain ⟨h1, h2⟩ := setModels_binding_from ctx calls
    (CandyView.construct settings dateFrom dateTo)
  have hproxy : ((CandyView.construct settings dateFrom dateTo).setModels ctx
      calls).transactionProxyModel.isSome = true ↔ ∃ c ∈ calls, c.2.isSome = true := by
    rw [h2]
    simp [CandyView.construct]
  have hmodel : ((CandyView.construct settings dateFrom dateTo).setModels ctx calls).model =
      calls.getLast?.bind (fun c => c.2) := by
    rw [h1]
    cases calls.getLast? <;> rfl
  refine ⟨?_, hproxy, hmodel, ?_⟩
  · intro hm
    rw [hproxy]
    rw [hmodel] at hm
    cases hl : calls.getLast? with
    | none => rw [hl] at hm; simp at hm
    | some c =>
      rw [hl] at hm
      exact ⟨c, List.mem_of_mem_getLast? hl, hm⟩
  · intro d
    simp [CandyView.setModel]

theorem setModels_proxy_follows_model_witness :
    ((CandyView.construct [] (QDate.julian 2461344) (QDate.julian 2461345)).setModels
        sampleContext [(QDate.julian 2461344, some sampleWallet)]).model = some sampleWallet ∧
      ((CandyView.construct [] (QDate.julian 2461344) (QDate.julian 2461345)).setModels
        sampleContext
        [(QDate.julian 2461344, some sampleWallet)]).transactionProxyModel.isSome = true :=
  ⟨by decide,
    (setModels_proxy_follows_model sampleContext [] (QDate.julian 2461344)
      (QDate.julian 2461345) [(QDate.julian 2461344, some sampleWallet)]).1 (by decide)⟩

/-- C14, where the claim fails: after `setModel` with a wallet model and then
`setModel(null)` no wallet model is bound, and the filter proxy of the first call is
bound still; a later `changedAmount` reaches it. -/
theorem setModel_null_keeps_proxy :
    ((CandyView.construct [] (QDate.julian 2461344) (QDate.julian 2461345)).setModels
        sampleContext
        [(QDate.julian 2461344, some sampleWallet), (QDate.julian 2461344, none)]).model
        = none ∧
      ((CandyView.construct [] (QDate.julian 2461344) (QDate.julian 2461345)).setModels
        sampleContext
        [(QDate.julian 2461344, some sampleWallet),
          (QDate.julian 2461344, none)]).transactionProxyModel =
        some (CandyView.newProxy.call
          (ProxyCall.setDateRange sampleContext.MIN_DATE sampleContext.MAX_DATE)) ∧
      (((CandyView.construct [] (QDate.julian 2461344) (QDate.julian 2461345)).setModels
        sampleContext
        [(QDate.julian 2461344, some sampleWallet),
          (QDate.julian 2461344, none)]).changedAmount "12.".toList).transactionProxyModel =
        some ((CandyView.newProxy.call
          (ProxyCall.setDateRange sampleContext.MIN_DATE sampleContext.MAX_DATE)).call
          (ProxyCall.setMinAssetsAmountStr "12".toList)) := by
  decide
